import Mathlib

/-!
Shallow embedding of the Background-Remover core: the chroma-key and
mask-compositing pixel algorithms (src/lib/imageProcessing.ts), the filter
pixel math (RenderEngine.applyFilter and the filter-effects module), the
editor state / command history (EditorState.ts, CommandHistory.ts), the
render-engine effect loop, and the bounded-concurrency worker pool
(workerPool.ts).  JavaScript numbers are modelled as exact rationals where
real arithmetic occurs and as Nat/Int where the code only stores or
compares integers; canvas primitives and the external AI call are
parameters of the model.
-/

namespace BackgroundRemover

/-! Pixels.  Canvas `ImageData` stores RGBA channels as integers 0..255;
a pixel is the 4-byte group `data[i] .. data[i+3]`. -/

structure Pixel where
  r : Nat
  g : Nat
  b : Nat
  a : Nat
deriving DecidableEq, Repr

abbrev Image := List Pixel

/-! Chroma-key colour removal, from `removeSpecificColor` in
src/lib/imageProcessing.ts.  The hex target is parsed with
`parseInt(targetColor.slice(1,3),16)` and friends; the per-pixel loop
computes the squared Euclidean distance to the target and zeroes the alpha
byte when it is within `tolerance * tolerance * 3`.  The chunked loop with
cooperative yields touches each pixel exactly once in order, so it is a map
over the pixel list. -/

def hexDigitVal (c : Char) : Nat :=
  if '0' ≤ c ∧ c ≤ '9' then c.toNat - '0'.toNat
  else if 'a' ≤ c ∧ c ≤ 'f' then c.toNat - 'a'.toNat + 10
  else if 'A' ≤ c ∧ c ≤ 'F' then c.toNat - 'A'.toNat + 10
  else 0

def parseHexPair : List Char → Nat
  | [h, l] => 16 * hexDigitVal h + hexDigitVal l
  | _ => 0

def parseHexColor (targetColor : String) : Nat × Nat × Nat :=
  let cs := targetColor.data
  (parseHexPair ((cs.drop 1).take 2),
   parseHexPair ((cs.drop 3).take 2),
   parseHexPair ((cs.drop 5).take 2))

def colorDistanceSquared (targetR targetG targetB : Nat) (p : Pixel) : Int :=
  ((p.r : Int) - (targetR : Int)) ^ 2 +
  ((p.g : Int) - (targetG : Int)) ^ 2 +
  ((p.b : Int) - (targetB : Int)) ^ 2

def removeColorPixel (targetR targetG targetB : Nat) (tolerance : ℚ) (p : Pixel) : Pixel :=
  if (colorDistanceSquared targetR targetG targetB p : ℚ) ≤ tolerance * tolerance * 3 then
    { p with a := 0 }
  else
    p

def removeSpecificColor (targetColor : String) (tolerance : ℚ) (img : Image) : Image :=
  let t := parseHexColor targetColor
  img.map (removeColorPixel t.1 t.2.1 t.2.2 tolerance)

/-! Sharp/blur mask compositing, from `blurBackgroundOnly` in
src/lib/imageProcessing.ts, step 6: for each pixel index, if the mask alpha
is strictly greater than 128 the output copies the sharp (original) RGB,
otherwise the blurred RGB, and the output alpha is always 255.  The blurred
copy itself is produced by the canvas `blur(...)` filter and enters the
model as an arbitrary image. -/

def compositePixel (maskPx sharpPx blurredPx : Pixel) : Pixel :=
  if 128 < maskPx.a then
    { r := sharpPx.r, g := sharpPx.g, b := sharpPx.b, a := 255 }
  else
    { r := blurredPx.r, g := blurredPx.g, b := blurredPx.b, a := 255 }

def blurBackgroundComposite : Image → Image → Image → Image
  | m :: ms, s :: ss, bl :: bs => compositePixel m s bl :: blurBackgroundComposite ms ss bs
  | _, _, _ => []

/-! Filter pixel math.  Two distinct implementations exist in the source:
`RenderEngine.applyFilter` (src/lib/editor/RenderEngine.ts) and
`applyFilters` in the filter-effects module (part_013).  Channels are
computed in rational arithmetic; decimal literals of the source are taken
as exact rationals.  The final store into the `Uint8ClampedArray` quantizes
to an integer; the definitions below give the clamped value being stored. -/

def clamp255 (x : ℚ) : ℚ := max 0 (min 255 x)

structure FilterEffectParams where
  preset : Option String := none
  brightness : ℚ
  contrast : ℚ
  saturation : ℚ
  temperature : ℚ
  intensity : ℚ
deriving DecidableEq

/-- Per-channel pixel transform of `RenderEngine.applyFilter`: brightness
multiplier, then contrast with the linear factor `1 + contrast`, then
saturation about the luma, then clamp.  No exposure and no temperature
step occurs in this function. -/
def applyFilterPixel (params : FilterEffectParams) (r0 g0 b0 : ℚ) : ℚ × ℚ × ℚ :=
  let brightness := 1 + params.brightness
  let contrast := 1 + params.contrast
  let saturation := 1 + params.saturation
  let r1 := r0 * brightness
  let g1 := g0 * brightness
  let b1 := b0 * brightness
  let r2 := ((r1 / 255 - 1/2) * contrast + 1/2) * 255
  let g2 := ((g1 / 255 - 1/2) * contrast + 1/2) * 255
  let b2 := ((b1 / 255 - 1/2) * contrast + 1/2) * 255
  let gray := 299/1000 * r2 + 587/1000 * g2 + 114/1000 * b2
  let r3 := gray + saturation * (r2 - gray)
  let g3 := gray + saturation * (g2 - gray)
  let b3 := gray + saturation * (b2 - gray)
  (clamp255 r3, clamp255 g3, clamp255 b3)

structure FilterParams where
  brightness : ℚ
  contrast : ℚ
  saturation : ℚ
  temperature : ℚ
  hue : ℚ
  exposure : ℚ
  vignette : ℚ
  grain : ℚ
  sharpness : ℚ
deriving DecidableEq

/-- Per-channel pixel transform of `applyFilters` in the filter-effects
module.  `exposureFactor` is the value `2 ** p.exposure` the source computes
once before the loop; it is passed in already evaluated because `2 ** q` is
irrational for fractional `q` (the claims instantiate it at `exposure = 0`,
where it is `1`). -/
def applyFiltersPixel (p : FilterParams) (exposureFactor : ℚ) (r0 g0 b0 : ℚ) : ℚ × ℚ × ℚ :=
  let brightnessMultiplier := 1 + p.brightness
  let contrastFactor := (1 + p.contrast) ^ 2
  let saturationFactor := 1 + p.saturation
  let r1 := r0 * exposureFactor
  let g1 := g0 * exposureFactor
  let b1 := b0 * exposureFactor
  let r2 := r1 * brightnessMultiplier
  let g2 := g1 * brightnessMultiplier
  let b2 := b1 * brightnessMultiplier
  let r3 := ((r2 / 255 - 1/2) * contrastFactor + 1/2) * 255
  let g3 := ((g2 / 255 - 1/2) * contrastFactor + 1/2) * 255
  let b3 := ((b2 / 255 - 1/2) * contrastFactor + 1/2) * 255
  let gray := 299/1000 * r3 + 587/1000 * g3 + 114/1000 * b3
  let r4 := gray + saturationFactor * (r3 - gray)
  let g4 := gray + saturationFactor * (g3 - gray)
  let b4 := gray + saturationFactor * (b3 - gray)
  let rgb5 :=
    if p.temperature ≠ 0 then
      let tempShift := p.temperature * 30
      (r4 + tempShift, g4, b4 - tempShift)
    else
      (r4, g4, b4)
  (clamp255 rgb5.1, clamp255 rgb5.2.1, clamp255 rgb5.2.2)

/-! The filter formula of the specification, written as a composition of
named steps: exposure, brightness, contrast with factor `(1 + contrast)^2`,
saturation about the luma, temperature (`r += t*30; b -= t*30` when the
temperature is nonzero), clamp. -/

def exposureStep (exposureFactor c : ℚ) : ℚ := c * exposureFactor

def brightnessStep (brightnessMultiplier c : ℚ) : ℚ := c * brightnessMultiplier

def contrastStep (contrastFactor c : ℚ) : ℚ :=
  ((c / 255 - 1/2) * contrastFactor + 1/2) * 255

def saturationStep (saturationFactor : ℚ) (rgb : ℚ × ℚ × ℚ) : ℚ × ℚ × ℚ :=
  let gray := 299/1000 * rgb.1 + 587/1000 * rgb.2.1 + 114/1000 * rgb.2.2
  (gray + saturationFactor * (rgb.1 - gray),
   gray + saturationFactor * (rgb.2.1 - gray),
   gray + saturationFactor * (rgb.2.2 - gray))

def temperatureStep (t : ℚ) (rgb : ℚ × ℚ × ℚ) : ℚ × ℚ × ℚ :=
  if t ≠ 0 then (rgb.1 + t * 30, rgb.2.1, rgb.2.2 - t * 30) else rgb

def mapChannels (f : ℚ → ℚ) (rgb : ℚ × ℚ × ℚ) : ℚ × ℚ × ℚ :=
  (f rgb.1, f rgb.2.1, f rgb.2.2)

/-- The specification's filter formula for one pixel, §4.3 of the spec:
exposure, brightness, contrast with quadratic factor, saturation,
temperature, clamp, in that order. -/
def specFilterPixel (p : FilterParams) (exposureFactor : ℚ) (r0 g0 b0 : ℚ) : ℚ × ℚ × ℚ :=
  mapChannels clamp255
    (temperatureStep p.temperature
      (saturationStep (1 + p.saturation)
        (mapChannels (contrastStep ((1 + p.contrast) ^ 2))
          (mapChannels (brightnessStep (1 + p.brightness))
            (mapChannels (exposureStep exposureFactor) (r0, g0, b0))))))

/-! Editor state model, from EditorState.ts.  All geometric parameters are
resolution-agnostic numbers; `params` records are dynamically typed in the
source (`Record<string, any>`) and are modelled as association lists of
dynamic values. -/

inductive PVal where
  | num (q : ℚ)
  | str (s : String)
  | flag (b : Bool)
deriving DecidableEq, Repr

abbrev Params := List (String × PVal)

structure TransformMatrix where
  scaleX : ℚ
  scaleY : ℚ
  rotation : ℚ
  translateX : ℚ
  translateY : ℚ
deriving DecidableEq, Repr

def DEFAULT_TRANSFORM : TransformMatrix :=
  { scaleX := 1, scaleY := 1, rotation := 0, translateX := 0, translateY := 0 }

inductive LayerType where
  | background | border | subject | sticker | watermark
deriving DecidableEq, Repr

structure Layer where
  id : String
  type : LayerType
  visible : Bool
  locked : Bool
  transform : TransformMatrix
  params : Params
deriving DecidableEq, Repr

inductive EffectType where
  | color | blur | shadow | filter | border
deriving DecidableEq, Repr

structure EffectNode where
  id : String
  type : EffectType
  params : Params
  enabled : Bool
deriving DecidableEq, Repr

inductive ProcessingMode where
  | removeOnly | removeColor | removeBlur | removeShadow | removeBorder | custom
deriving DecidableEq, Repr

structure EditorState where
  id : String
  originalImageKey : String
  alphaMaskKey : Option String
  canvasWidth : Nat
  canvasHeight : Nat
  layers : List Layer
  effects : List EffectNode
  processingMode : ProcessingMode
  previewQuality : Nat
  exportQuality : ℚ
deriving DecidableEq, Repr

/-- From `toggleEffect` in the AutoProcessor module: flip the `enabled` flag
of the effect whose id matches, leaving everything else alone. -/
def toggleEffect (state : EditorState) (effectId : String) : EditorState :=
  { state with
    effects := state.effects.map fun e =>
      if e.id = effectId then { e with enabled := !e.enabled } else e }

/-! Command history, from CommandHistory.ts.  A command's `prevValue` and
`newValue` are `any`-typed in the source; each `applyCommand` branch casts
the stored value to the type it needs, modelled here by total projections
out of a dynamic-value type (on the well-typed commands the application
constructs, the projections are exact). -/

inductive CommandType where
  | SET_EFFECT
  | ADD_EFFECT
  | REMOVE_EFFECT
  | TOGGLE_EFFECT
  | SET_LAYER
  | ADD_LAYER
  | REMOVE_LAYER
  | TOGGLE_LAYER
  | SET_BACKGROUND
  | SET_TRANSFORM
deriving DecidableEq, Repr

inductive CmdValue where
  | vParams (p : Params)
  | vFlag (b : Bool)
  | vTransform (t : TransformMatrix)
  | vEffect (e : EffectNode)
  | vNull
deriving DecidableEq, Repr

def CmdValue.asParams : CmdValue → Params
  | .vParams p => p
  | _ => []

def CmdValue.asFlag : CmdValue → Bool
  | .vFlag b => b
  | _ => false

def CmdValue.asTransform : CmdValue → TransformMatrix
  | .vTransform t => t
  | _ => DEFAULT_TRANSFORM

def CmdValue.asEffect : CmdValue → EffectNode
  | .vEffect e => e
  | _ => { id := "", type := .color, params := [], enabled := true }

structure CommandPayload where
  targetId : String
  prevValue : CmdValue
  newValue : CmdValue
deriving DecidableEq, Repr

structure Command where
  type : CommandType
  timestamp : Nat
  payload : CommandPayload
deriving DecidableEq, Repr

def applyCommand (state : EditorState) (command : Command) (reverse : Bool) : EditorState :=
  let value := if reverse then command.payload.prevValue else command.payload.newValue
  let targetId := command.payload.targetId
  match command.type with
  | .SET_EFFECT =>
      { state with
        effects := state.effects.map fun e =>
          if e.id = targetId then { e with params := value.asParams } else e }
  | .ADD_EFFECT =>
      if reverse then
        { state with effects := state.effects.filter fun e => e.id ≠ targetId }
      else
        { state with effects := state.effects ++ [value.asEffect] }
  | .REMOVE_EFFECT =>
      if reverse then
        { state with effects := state.effects ++ [value.asEffect] }
      else
        { state with effects := state.effects.filter fun e => e.id ≠ targetId }
  | .TOGGLE_EFFECT =>
      { state with
        effects := state.effects.map fun e =>
          if e.id = targetId then { e with enabled := value.asFlag } else e }
  | .SET_LAYER =>
      { state with
        layers := state.layers.map fun l =>
          if l.id = targetId then { l with params := value.asParams } else l }
  | .TOGGLE_LAYER =>
      { state with
        layers := state.layers.map fun l =>
          if l.id = targetId then { l with visible := value.asFlag } else l }
  | .SET_TRANSFORM =>
      { state with
        layers := state.layers.map fun l =>
          if l.id = targetId then { l with transform := value.asTransform } else l }
  | _ => state

structure CommandHistory where
  commands : List Command := []
  currentIndex : Int := -1
  maxHistory : Nat := 50
deriving DecidableEq, Repr

def CommandHistory.canUndo (h : CommandHistory) : Bool :=
  0 ≤ h.currentIndex

def CommandHistory.canRedo (h : CommandHistory) : Bool :=
  h.currentIndex < (h.commands.length : Int) - 1

/-- From `CommandHistory.execute`: drop the redo branch, push the command,
advance the cursor, and shift the oldest entry out when the log exceeds
`maxHistory`.  (`slice(0, currentIndex + 1)` is `take (currentIndex+1)`
for every cursor the class can reach, where `currentIndex ≥ -1`.) -/
def CommandHistory.execute (h : CommandHistory) (c : Command) : CommandHistory :=
  let commands :=
    if h.currentIndex < (h.commands.length : Int) - 1 then
      h.commands.take (h.currentIndex + 1).toNat
    else
      h.commands
  let commands := commands ++ [c]
  let currentIndex := h.currentIndex + 1
  if (h.maxHistory : Int) < (commands.length : Int) then
    { h with commands := commands.tail, currentIndex := currentIndex - 1 }
  else
    { h with commands := commands, currentIndex := currentIndex }

def CommandHistory.undo (h : CommandHistory) (state : EditorState) :
    CommandHistory × EditorState × Bool :=
  if h.canUndo then
    match h.commands[h.currentIndex.toNat]? with
    | some c => ({ h with currentIndex := h.currentIndex - 1 }, applyCommand state c true, true)
    | none => (h, state, false)
  else
    (h, state, false)

def CommandHistory.redo (h : CommandHistory) (state : EditorState) :
    CommandHistory × EditorState × Bool :=
  if h.canRedo then
    match h.commands[(h.currentIndex + 1).toNat]? with
    | some c => ({ h with currentIndex := h.currentIndex + 1 }, applyCommand state c false, true)
    | none => (h, state, false)
  else
    (h, state, false)

/-- A state is consistent with having just executed `c` (as the states the
history replays are): the fields `c` wrote hold `c.payload.newValue`, and
for the add/remove forms the targeted id occurs as the command left it. -/
def executedConsistent (s : EditorState) (c : Command) : Prop :=
  let tid := c.payload.targetId
  let v := c.payload.newValue
  let pv := c.payload.prevValue
  match c.type with
  | .SET_EFFECT => ∀ e ∈ s.effects, e.id = tid → e.params = v.asParams
  | .ADD_EFFECT =>
      v.asEffect.id = tid ∧
      ∃ es, s.effects = es ++ [v.asEffect] ∧ ∀ e ∈ es, e.id ≠ tid
  | .REMOVE_EFFECT => pv.asEffect.id = tid ∧ ∀ e ∈ s.effects, e.id ≠ tid
  | .TOGGLE_EFFECT => ∀ e ∈ s.effects, e.id = tid → e.enabled = v.asFlag
  | .SET_LAYER => ∀ l ∈ s.layers, l.id = tid → l.params = v.asParams
  | .TOGGLE_LAYER => ∀ l ∈ s.layers, l.id = tid → l.visible = v.asFlag
  | .SET_TRANSFORM => ∀ l ∈ s.layers, l.id = tid → l.transform = v.asTransform
  | _ => True

/-! Render engine, from RenderEngine.ts.  The canvas primitives the engine
drives (painting one layer, the drop-shadow redraw, the StackBlur call, the
per-pixel filter loop) are parameters of the model: `render` below mirrors
the control structure of `RenderEngine.render` — scale computation, layer
loop skipping invisible layers, effect loop skipping disabled effects —
over those primitives.  `renderLayer` in the source reads only the layer
itself, the bitmaps and the target geometry (its `state` parameter is
unused), so layer painting does not depend on `state.effects`. -/

inductive RenderQuality where
  | preview
  | exportRes
deriving DecidableEq, Repr

structure RenderOptions where
  quality : RenderQuality
  format : Option String := none
  jpegQuality : Option ℚ := none
deriving DecidableEq, Repr

/-- `Math.round`, for nonnegative arguments as used for canvas sizes. -/
def jsRound (q : ℚ) : Int := ⌊q + 1/2⌋

/-- The canvas primitives outside the embedding (Canvas 2D layer painting,
drop-shadow redraw, StackBlur, the pixel filter loop over the raster). -/
structure CanvasOps where
  renderLayer : Layer → Image → Option Image → Int → Int → ℚ → Image → Image
  applyShadow : Params → Int → Int → Image → Image
  applyFilterOp : Params → Int → Int → Image → Image
  applyBlurOp : Params → Int → Int → Image → Image

def Params.num (p : Params) (key : String) : ℚ :=
  match p.find? (fun kv => kv.1 = key) with
  | some (_, .num q) => q
  | _ => 0

/-- Effect dispatch of `RenderEngine.applyEffect`: shadow, filter and blur
have cases; `color` and `border` effects fall through and do nothing.  The
blur case returns early when the rounded pixel radius is ≤ 0. -/
def applyEffect (ops : CanvasOps) (effect : EffectNode) (width height : Int) (img : Image) : Image :=
  match effect.type with
  | .shadow => ops.applyShadow effect.params width height img
  | .filter => ops.applyFilterOp effect.params width height img
  | .blur =>
      let radius := jsRound (effect.params.num "radius" * (min width height : ℚ))
      if radius ≤ 0 then img else ops.applyBlurOp effect.params width height img
  | _ => img

def blankCanvas : Image := []

/-- `RenderEngine.render`: compute the scale and output size, clear the
canvas, paint visible layers in array order, then apply enabled effects in
array order. -/
def render (ops : CanvasOps) (state : EditorState) (originalImage : Image)
    (alphaMask : Option Image) (origWidth origHeight : Nat)
    (options : RenderOptions) : Image :=
  let scale : ℚ :=
    if options.quality = .preview then
      min 1 ((state.previewQuality : ℚ) / (max origWidth origHeight : ℚ))
    else 1
  let width := jsRound ((origWidth : ℚ) * scale)
  let height := jsRound ((origHeight : ℚ) * scale)
  let canvas := state.layers.foldl
    (fun c layer =>
      if layer.visible then ops.renderLayer layer originalImage alphaMask width height scale c
      else c)
    blankCanvas
  state.effects.foldl
    (fun img effect => if effect.enabled then applyEffect ops effect width height img else img)
    canvas

/-! Worker pool, from the `WorkerPool` class (part_015).  A slot's `Worker`
object is modelled by a generation counter (`gen`) bumped each time the
context is torn down and recreated; a job's `File` is modelled by whether
its `arrayBuffer()` call resolves (`fileReadable`); callbacks are modelled
as an emitted event list.  The `await` inside `processNext` is taken as
resolving within the dispatch step, so each operation is one atomic state
transition, as the single-threaded scheduler interleaves them. -/

abbrev JobId := String

structure WorkerJob where
  id : JobId
  fileReadable : Bool
deriving DecidableEq, Repr

structure WorkerWrapper where
  id : Nat
  gen : Nat
  busy : Bool
  currentJobId : Option JobId
deriving DecidableEq, Repr

inductive PoolEvent where
  | onStart (id : JobId)
  | onProgress (id : JobId) (percent : Int) (stage : String)
  | onComplete (id : JobId)
  | onError (id : JobId) (message : String)
deriving DecidableEq, Repr

def PoolEvent.jobId : PoolEvent → JobId
  | .onStart i => i
  | .onProgress i _ _ => i
  | .onComplete i => i
  | .onError i _ => i

inductive WorkerResponse where
  | progress (percent : Int) (stage : String)
  | complete
  | error (message : String)
  | ready
deriving DecidableEq, Repr

def MAX_CONCURRENCY : Nat := 2

structure PoolState where
  workers : List WorkerWrapper := []
  queue : List WorkerJob := []
  activeJobs : List WorkerJob := []
  initialized : Bool := false
deriving DecidableEq, Repr

/-- `Map.set` on the `activeJobs` map keyed by job id. -/
def mapSet (m : List WorkerJob) (j : WorkerJob) : List WorkerJob :=
  if m.any (fun x => x.id = j.id) then
    m.map fun x => if x.id = j.id then j else x
  else
    m ++ [j]

/-- `Map.delete` on the `activeJobs` map. -/
def mapDelete (m : List WorkerJob) (id : JobId) : List WorkerJob :=
  m.filter fun x => x.id ≠ id

/-- `Map.get` on the `activeJobs` map. -/
def mapGet (m : List WorkerJob) (id : JobId) : Option WorkerJob :=
  m.find? fun x => x.id = id

def updateWorker (ws : List WorkerWrapper) (wid : Nat)
    (f : WorkerWrapper → WorkerWrapper) : List WorkerWrapper :=
  ws.map fun w => if w.id = wid then f w else w

/-- `WorkerPool.init`: create `MAX_CONCURRENCY` workers, all idle. -/
def initPool : PoolState :=
  { workers := (List.range MAX_CONCURRENCY).map fun i =>
      { id := i, gen := 0, busy := false, currentJobId := none },
    queue := [], activeJobs := [], initialized := true }

/-- `WorkerPool.processNext`: find a free slot and a queued job; mark the
slot busy with the job, record it in `activeJobs`, fire `onStart`, then
read the file.  When the read throws, fire `onError`, free the slot again
(`releaseWorker`) and recurse — note the job stays in `activeJobs`. -/
def processNext (s : PoolState) : PoolState × List PoolEvent :=
  match s.workers.find? (fun w => !w.busy) with
  | none => (s, [])
  | some freeWorker =>
    match _hq : s.queue with
    | [] => (s, [])
    | job :: rest =>
      if job.fileReadable then
        ({ s with
            queue := rest,
            workers := updateWorker s.workers freeWorker.id fun w =>
              { w with busy := true, currentJobId := some job.id },
            activeJobs := mapSet s.activeJobs job },
         [.onStart job.id])
      else
        let next := processNext
          { s with
            queue := rest,
            workers := updateWorker
              (updateWorker s.workers freeWorker.id fun w =>
                { w with busy := true, currentJobId := some job.id })
              freeWorker.id
              (fun w => { w with busy := false, currentJobId := none }),
            activeJobs := mapSet s.activeJobs job }
        (next.1, .onStart job.id :: .onError job.id "Failed to read file" :: next.2)
termination_by s.queue.length
decreasing_by simp_all

/-- `WorkerPool.releaseWorker`: mark the slot idle and dispatch the next
queued job. -/
def releaseWorker (s : PoolState) (wid : Nat) : PoolState × List PoolEvent :=
  processNext
    { s with workers := updateWorker s.workers wid fun w =>
        { w with busy := false, currentJobId := none } }

/-- `WorkerPool.addJob`: lazily init, enqueue, dispatch. -/
def addJob (s : PoolState) (job : WorkerJob) : PoolState × List PoolEvent :=
  let s0 := if s.initialized then s else { s with workers := initPool.workers, initialized := true }
  processNext { s0 with queue := s0.queue ++ [job] }

/-- `WorkerPool.cancelJob`: filter the queue; if the job is active, delete
it from `activeJobs`, hard-reset the slot holding it (terminate and
recreate its worker, modelled by the `gen` bump), and dispatch the next
queued job. -/
def cancelJob (s : PoolState) (id : JobId) : PoolState × List PoolEvent :=
  let s1 := { s with queue := s.queue.filter fun j => j.id ≠ id }
  if s1.activeJobs.any (fun j => j.id = id) then
    let s2 := { s1 with activeJobs := mapDelete s1.activeJobs id }
    match s2.workers.find? (fun w => w.currentJobId = some id) with
    | some w =>
        processNext
          { s2 with workers := updateWorker s2.workers w.id fun ww =>
              { ww with gen := ww.gen + 1, busy := false, currentJobId := none } }
    | none => (s2, [])
  else
    (s1, [])

/-- `WorkerPool.handleMessage`: map the slot back to its current job id;
drop the message when the slot has no bound job or the job is no longer
active; otherwise fire the matching callback, and on a terminal message
delete the job and release the slot. -/
def handleMessage (s : PoolState) (workerId : Nat) (resp : WorkerResponse) :
    PoolState × List PoolEvent :=
  match s.workers.find? (fun w => w.id = workerId) with
  | none => (s, [])
  | some workerWrapper =>
    match workerWrapper.currentJobId with
    | none => (s, [])
    | some jobId =>
      match mapGet s.activeJobs jobId with
      | none => (s, [])
      | some _job =>
        match resp with
        | .progress percent stage => (s, [.onProgress jobId percent stage])
        | .complete =>
            let next := releaseWorker { s with activeJobs := mapDelete s.activeJobs jobId } workerId
            (next.1, .onComplete jobId :: next.2)
        | .error msg =>
            let next := releaseWorker { s with activeJobs := mapDelete s.activeJobs jobId } workerId
            (next.1, .onError jobId msg :: next.2)
        | .ready => (s, [])

def getActiveCount (s : PoolState) : Nat := s.activeJobs.length

def getQueueLength (s : PoolState) : Nat := s.queue.length

/-- Number of slots currently marked busy: the jobs in flight. -/
def busyCount (s : PoolState) : Nat := (s.workers.filter fun w => w.busy).length

inductive PoolOp where
  | add (job : WorkerJob)
  | cancel (id : JobId)
  | message (workerId : Nat) (resp : WorkerResponse)
deriving DecidableEq, Repr

def stepOp (s : PoolState) : PoolOp → PoolState × List PoolEvent
  | .add job => addJob s job
  | .cancel id => cancelJob s id
  | .message wid resp => handleMessage s wid resp

def runOps (s : PoolState) : List PoolOp → PoolState × List PoolEvent
  | [] => (s, [])
  | op :: ops =>
      let first := stepOp s op
      let restRun := runOps first.1 ops
      (restRun.1, first.2 ++ restRun.2)

/-- Job id `id` is gone from the pool's job-holding collections that can
fire its callbacks: the pending queue and the active map. -/
def Quiet (id : JobId) (s : PoolState) : Prop :=
  (∀ j ∈ s.queue, j.id ≠ id) ∧ (∀ j ∈ s.activeJobs, j.id ≠ id)

/-- Operations that mention job id `id` by name: adding a job with that id
or cancelling it. -/
def opTouchesJob (id : JobId) : PoolOp → Bool
  | .add j => j.id = id
  | .cancel cid => cid = id
  | .message _ _ => false

/-- A leaked job: it sits in `activeJobs` while no slot is computing it and
no queue entry can re-dispatch it. -/
def StuckActive (id : JobId) (s : PoolState) : Prop :=
  (∃ j ∈ s.activeJobs, j.id = id) ∧ (∀ j ∈ s.queue, j.id ≠ id) ∧
  (∀ w ∈ s.workers, w.currentJobId ≠ some id)

/-- The pool state after submitting `jobs` (all with readable files and
distinct ids) to a freshly initialized pool: the first `MAX_CONCURRENCY`
jobs occupy the slots, the rest wait in the queue in submission order. -/
def addedState (jobs : List WorkerJob) : PoolState :=
  { workers := [
      { id := 0, gen := 0, busy := decide (1 ≤ jobs.length),
        currentJobId := (jobs[0]?).map WorkerJob.id },
      { id := 1, gen := 0, busy := decide (2 ≤ jobs.length),
        currentJobId := (jobs[1]?).map WorkerJob.id }],
    queue := jobs.drop 2,
    activeJobs := jobs.take 2,
    initialized := true }

/-- Canvas primitives that paint nothing, for instantiating the render
model at concrete inputs. -/
def idCanvasOps : CanvasOps :=
  { renderLayer := fun _ _ _ _ _ _ c => c,
    applyShadow := fun _ _ _ img => img,
    applyFilterOp := fun _ _ _ img => img,
    applyBlurOp := fun _ _ _ img => img }

/-! Theorems. -/

theorem list_map_id_of_mem {α : Type} (l : List α) (f : α → α)
    (h : ∀ x ∈ l, f x = x) : l.map f = l := by
  induction l with
  | nil => rfl
  | cons a t ih => simp_all

/-- States reached by submitting unreadable jobs "a", "b", "c" to a fresh
pool: the slots are idle, the queue empty, yet the failed jobs accumulate
in `activeJobs`. -/
def leakA : PoolState :=
  ⟨[⟨0, 0, false, none⟩, ⟨1, 0, false, none⟩], [], [⟨"a", false⟩], true⟩

def leakAB : PoolState :=
  ⟨[⟨0, 0, false, none⟩, ⟨1, 0, false, none⟩], [], [⟨"a", false⟩, ⟨"b", false⟩], true⟩

def leakABC : PoolState :=
  ⟨[⟨0, 0, false, none⟩, ⟨1, 0, false, none⟩], [],
    [⟨"a", false⟩, ⟨"b", false⟩, ⟨"c", false⟩], true⟩


/-! Worker-pool lemmas.  First, closed-form equations for `processNext`
(one per control path), then structural facts proved by its functional
induction principle. -/

theorem processNext_no_free (s : PoolState)
    (h : s.workers.find? (fun w => !w.busy) = none) : processNext s = (s, []) := by
  rw [processNext.eq_def, h]

theorem processNext_empty_queue (s : PoolState)
    (hq : s.queue = []) : processNext s = (s, []) := by
  rw [processNext.eq_def]
  cases hfw : s.workers.find? (fun w => !w.busy) with
  | none => rfl
  | some fw =>
      dsimp only
      split
      · rfl
      · next job rest h2 => rw [hq] at h2; simp at h2

theorem processNext_dispatch (s : PoolState) (fw : WorkerWrapper) (job : WorkerJob)
    (rest : List WorkerJob)
    (hfw : s.workers.find? (fun w => !w.busy) = some fw)
    (hq : s.queue = job :: rest) (hr : job.fileReadable = true) :
    processNext s =
      ({ s with
          queue := rest,
          workers := updateWorker s.workers fw.id fun w =>
            { w with busy := true, currentJobId := some job.id },
          activeJobs := mapSet s.activeJobs job },
       [.onStart job.id]) := by
  rw [processNext.eq_def, hfw]
  dsimp only
  split
  · next h2 => rw [hq] at h2; simp at h2
  · next job2 rest2 h2 =>
      rw [hq] at h2
      obtain ⟨h3, h4⟩ := List.cons.inj h2
      subst h3; subst h4
      rw [if_pos hr]

theorem processNext_dispatch_fail (s : PoolState) (fw : WorkerWrapper) (job : WorkerJob)
    (rest : List WorkerJob)
    (hfw : s.workers.find? (fun w => !w.busy) = some fw)
    (hq : s.queue = job :: rest) (hr : job.fileReadable = false) :
    processNext s =
      ((processNext
          { s with
            queue := rest,
            workers := updateWorker
              (updateWorker s.workers fw.id fun w =>
                { w with busy := true, currentJobId := some job.id })
              fw.id (fun w => { w with busy := false, currentJobId := none }),
            activeJobs := mapSet s.activeJobs job }).1,
       .onStart job.id :: .onError job.id "Failed to read file" ::
        (processNext
          { s with
            queue := rest,
            workers := updateWorker
              (updateWorker s.workers fw.id fun w =>
                { w with busy := true, currentJobId := some job.id })
              fw.id (fun w => { w with busy := false, currentJobId := none }),
            activeJobs := mapSet s.activeJobs job }).2) := by
  rw [processNext.eq_def, hfw]
  dsimp only
  split
  · next h2 => rw [hq] at h2; simp at h2
  · next job2 rest2 h2 =>
      rw [hq] at h2
      obtain ⟨h3, h4⟩ := List.cons.inj h2
      subst h3; subst h4
      rw [if_neg (by simp [hr])]

theorem mem_mapSet (m : List WorkerJob) (x j : WorkerJob) (h : j ∈ mapSet m x) :
    j ∈ m ∨ j = x := by
  unfold mapSet at h
  split at h
  · rcases List.mem_map.mp h with ⟨y, hy, hyx⟩
    by_cases hid : y.id = x.id
    · rw [if_pos hid] at hyx; right; exact hyx.symm
    · rw [if_neg hid] at hyx; left; rw [← hyx]; exact hy
  · rcases List.mem_append.mp h with h1 | h1
    · left; exact h1
    · right; simpa using h1

theorem mem_mapDelete (m : List WorkerJob) (id : JobId) (j : WorkerJob)
    (h : j ∈ mapDelete m id) : j ∈ m ∧ j.id ≠ id := by
  unfold mapDelete at h
  have h1 := List.mem_filter.mp h
  exact ⟨h1.1, by simpa using h1.2⟩

theorem mem_updateWorker (ws : List WorkerWrapper) (wid : Nat)
    (f : WorkerWrapper → WorkerWrapper) (w : WorkerWrapper)
    (h : w ∈ updateWorker ws wid f) :
    ∃ w0 ∈ ws, w = (if w0.id = wid then f w0 else w0) := by
  unfold updateWorker at h
  rcases List.mem_map.mp h with ⟨w0, hw0, hmap⟩
  exact ⟨w0, hw0, hmap.symm⟩

theorem processNext_workers_length (s : PoolState) :
    ((processNext s).1).workers.length = s.workers.length := by
  induction s using processNext.induct with
  | case1 s hfind => rw [processNext_no_free s hfind]
  | case2 s fw hfind hq => rw [processNext_empty_queue s hq]
  | case3 s fw hfind job rest hq hr =>
      rw [processNext_dispatch s fw job rest hfind hq hr]
      simp [updateWorker]
  | case4 s fw hfind job rest hq hr ih =>
      rw [processNext_dispatch_fail s fw job rest hfind hq (by simpa using hr)]
      simpa [updateWorker] using ih

theorem processNext_initialized (s : PoolState) :
    ((processNext s).1).initialized = s.initialized := by
  induction s using processNext.induct with
  | case1 s hfind => rw [processNext_no_free s hfind]
  | case2 s fw hfind hq => rw [processNext_empty_queue s hq]
  | case3 s fw hfind job rest hq hr =>
      rw [processNext_dispatch s fw job rest hfind hq hr]
  | case4 s fw hfind job rest hq hr ih =>
      rw [processNext_dispatch_fail s fw job rest hfind hq (by simpa using hr)]
      simpa using ih

theorem processNext_events (s : PoolState) :
    ∀ e ∈ (processNext s).2, ∃ j ∈ s.queue, e.jobId = j.id := by
  induction s using processNext.induct with
  | case1 s hfind => rw [processNext_no_free s hfind]; simp
  | case2 s fw hfind hq => rw [processNext_empty_queue s hq]; simp
  | case3 s fw hfind job rest hq hr =>
      rw [processNext_dispatch s fw job rest hfind hq hr]
      intro e he
      simp at he
      exact ⟨job, by simp [hq], by simp [he, PoolEvent.jobId]⟩
  | case4 s fw hfind job rest hq hr ih =>
      rw [processNext_dispatch_fail s fw job rest hfind hq (by simpa using hr)]
      intro e he
      simp only [List.mem_cons] at he
      rcases he with he | he | he
      all_goals try subst he
      · exact ⟨job, by simp [hq], by simp [PoolEvent.jobId]⟩
      · exact ⟨job, by simp [hq], by simp [PoolEvent.jobId]⟩
      · rcases ih e he with ⟨j, hj, hje⟩
        exact ⟨j, by simp [hq]; right; simpa using hj, hje⟩

theorem processNext_queue_sub (s : PoolState) :
    ∀ j ∈ (processNext s).1.queue, j ∈ s.queue := by
  induction s using processNext.induct with
  | case1 s hfind => rw [processNext_no_free s hfind]; intro j hj; exact hj
  | case2 s fw hfind hq => rw [processNext_empty_queue s hq]; intro j hj; exact hj
  | case3 s fw hfind job rest hq hr =>
      rw [processNext_dispatch s fw job rest hfind hq hr]
      intro j hj
      simp [hq]
      right
      simpa using hj
  | case4 s fw hfind job rest hq hr ih =>
      rw [processNext_dispatch_fail s fw job rest hfind hq (by simpa using hr)]
      intro j hj
      have := ih j hj
      simp at this
      simp [hq]
      right
      exact this

theorem processNext_active (s : PoolState) :
    ∀ j ∈ (processNext s).1.activeJobs, j ∈ s.activeJobs ∨ j ∈ s.queue := by
  induction s using processNext.induct with
  | case1 s hfind => rw [processNext_no_free s hfind]; intro j hj; exact Or.inl hj
  | case2 s fw hfind hq => rw [processNext_empty_queue s hq]; intro j hj; exact Or.inl hj
  | case3 s fw hfind job rest hq hr =>
      rw [processNext_dispatch s fw job rest hfind hq hr]
      intro j hj
      rcases mem_mapSet _ _ _ hj with h1 | h1
      · exact Or.inl h1
      · exact Or.inr (by simp [hq, h1])
  | case4 s fw hfind job rest hq hr ih =>
      rw [processNext_dispatch_fail s fw job rest hfind hq (by simpa using hr)]
      intro j hj
      rcases ih j hj with h1 | h1
      · rcases mem_mapSet _ _ _ h1 with h2 | h2
        · exact Or.inl h2
        · exact Or.inr (by simp [hq, h2])
      · exact Or.inr (by simp [hq]; right; simpa using h1)

theorem processNext_workers_mem (s : PoolState) :
    ∀ w ∈ (processNext s).1.workers, ∃ w0 ∈ s.workers, w.id = w0.id ∧ w.gen = w0.gen ∧
      (w = w0 ∨ (w.busy = true ∧ ∃ j ∈ s.queue, w.currentJobId = some j.id) ∨
        (w.busy = false ∧ w.currentJobId = none)) := by
  induction s using processNext.induct with
  | case1 s hfind =>
      rw [processNext_no_free s hfind]
      intro w hw
      exact ⟨w, hw, rfl, rfl, Or.inl rfl⟩
  | case2 s fw hfind hq =>
      rw [processNext_empty_queue s hq]
      intro w hw
      exact ⟨w, hw, rfl, rfl, Or.inl rfl⟩
  | case3 s fw hfind job rest hq hr =>
      rw [processNext_dispatch s fw job rest hfind hq hr]
      intro w hw
      rcases mem_updateWorker _ _ _ _ hw with ⟨w0, hw0, hcond⟩
      by_cases hid : w0.id = fw.id
      · rw [if_pos hid] at hcond
        subst hcond
        exact ⟨w0, hw0, rfl, rfl, Or.inr (Or.inl ⟨rfl, job, by simp [hq], rfl⟩)⟩
      · rw [if_neg hid] at hcond
        exact ⟨w0, hw0, by rw [hcond], by rw [hcond], Or.inl hcond⟩
  | case4 s fw hfind job rest hq hr ih =>
      rw [processNext_dispatch_fail s fw job rest hfind hq (by simpa using hr)]
      intro w hw
      rcases ih w hw with ⟨w1, hw1, hid1, hgen1, hcase1⟩
      rcases mem_updateWorker _ _ _ _ hw1 with ⟨w2, hw2, hcond2⟩
      rcases mem_updateWorker _ _ _ _ hw2 with ⟨w0, hw0, hcond0⟩
      have hid20 : w2.id = w0.id := by
        by_cases h : w0.id = fw.id
        · rw [if_pos h] at hcond0; rw [hcond0]
        · rw [if_neg h] at hcond0; rw [hcond0]
      have hgen20 : w2.gen = w0.gen := by
        by_cases h : w0.id = fw.id
        · rw [if_pos h] at hcond0; rw [hcond0]
        · rw [if_neg h] at hcond0; rw [hcond0]
      have hid12 : w1.id = w2.id := by
        by_cases h : w2.id = fw.id
        · rw [if_pos h] at hcond2; rw [hcond2]
        · rw [if_neg h] at hcond2; rw [hcond2]
      have hgen12 : w1.gen = w2.gen := by
        by_cases h : w2.id = fw.id
        · rw [if_pos h] at hcond2; rw [hcond2]
        · rw [if_neg h] at hcond2; rw [hcond2]
      refine ⟨w0, hw0, by omega, by omega, ?_⟩
      rcases hcase1 with h1 | h1 | h1
      · subst h1
        by_cases h : w2.id = fw.id
        · rw [if_pos h] at hcond2
          rw [hcond2]
          exact Or.inr (Or.inr ⟨rfl, rfl⟩)
        · rw [if_neg h] at hcond2
          rw [hcond2]
          by_cases h0 : w0.id = fw.id
          · rw [if_pos h0] at hcond0
            rw [hcond0] at hcond2 ⊢
            exact Or.inr (Or.inl ⟨rfl, job, by simp [hq], rfl⟩)
          · rw [if_neg h0] at hcond0
            rw [hcond0]
            exact Or.inl rfl
      · rcases h1 with ⟨hb, j, hj, hcur⟩
        exact Or.inr (Or.inl ⟨hb, j, by simp [hq]; right; simpa using hj, hcur⟩)
      · exact Or.inr (Or.inr h1)

theorem releaseWorker_workers_length (s : PoolState) (wid : Nat) :
    ((releaseWorker s wid).1).workers.length = s.workers.length := by
  unfold releaseWorker
  rw [processNext_workers_length]
  simp [updateWorker]

theorem releaseWorker_initialized (s : PoolState) (wid : Nat) :
    ((releaseWorker s wid).1).initialized = s.initialized := by
  unfold releaseWorker
  rw [processNext_initialized]

theorem stepOp_workers_length (s : PoolState) (op : PoolOp) (hinit : s.initialized = true) :
    ((stepOp s op).1).workers.length = s.workers.length
    ∧ ((stepOp s op).1).initialized = true := by
  cases op with
  | add job =>
      simp only [stepOp, addJob, hinit, if_true]
      refine ⟨?_, ?_⟩
      · rw [processNext_workers_length]
      · rw [processNext_initialized]
        try exact hinit
  | cancel id =>
      simp only [stepOp, cancelJob]
      split
      · split
        · next w hfw =>
            refine ⟨?_, ?_⟩
            · rw [processNext_workers_length]; simp [updateWorker]
            · rw [processNext_initialized]; exact hinit
        · exact ⟨rfl, hinit⟩
      · exact ⟨rfl, hinit⟩
  | message wid resp =>
      simp only [stepOp, handleMessage]
      split
      · exact ⟨rfl, hinit⟩
      · split
        · exact ⟨rfl, hinit⟩
        · split
          · exact ⟨rfl, hinit⟩
          · split
            · exact ⟨rfl, hinit⟩
            · exact ⟨by rw [releaseWorker_workers_length], by rw [releaseWorker_initialized]; exact hinit⟩
            · exact ⟨by rw [releaseWorker_workers_length], by rw [releaseWorker_initialized]; exact hinit⟩
            · exact ⟨rfl, hinit⟩

theorem runOps_workers_length (ops : List PoolOp) (s : PoolState) (hinit : s.initialized = true) :
    ((runOps s ops).1).workers.length = s.workers.length
    ∧ ((runOps s ops).1).initialized = true := by
  induction ops generalizing s with
  | nil => exact ⟨rfl, hinit⟩
  | cons op ops ih =>
      simp only [runOps]
      have h1 := stepOp_workers_length s op hinit
      have h2 := ih (stepOp s op).1 h1.2
      exact ⟨h2.1.trans h1.1, h2.2⟩

theorem runOps_append (s : PoolState) (l1 l2 : List PoolOp) :
    (runOps s (l1 ++ l2)).1 = (runOps (runOps s l1).1 l2).1 := by
  induction l1 generalizing s with
  | nil => simp [runOps]
  | cons op l ih =>
      simp only [List.cons_append, runOps]
      exact ih (stepOp s op).1

theorem find?_free_none_busy (g0 g1 : Nat) (c0 c1 : Option JobId) :
    ([⟨0, g0, false, c0⟩, ⟨1, g1, false, c1⟩] : List WorkerWrapper).find?
      (fun w => !w.busy) = some ⟨0, g0, false, c0⟩ := rfl

theorem find?_free_first_busy (g0 g1 : Nat) (c0 c1 : Option JobId) :
    ([⟨0, g0, true, c0⟩, ⟨1, g1, false, c1⟩] : List WorkerWrapper).find?
      (fun w => !w.busy) = some ⟨1, g1, false, c1⟩ := rfl

theorem find?_free_both_busy (g0 g1 : Nat) (c0 c1 : Option JobId) :
    ([⟨0, g0, true, c0⟩, ⟨1, g1, true, c1⟩] : List WorkerWrapper).find?
      (fun w => !w.busy) = none := rfl

theorem addedState_nil :
    addedState [] =
      { workers := [⟨0, 0, false, none⟩, ⟨1, 0, false, none⟩],
        queue := [], activeJobs := [], initialized := true } := rfl

theorem addedState_one (j0 : WorkerJob) :
    addedState [j0] =
      { workers := [⟨0, 0, true, some j0.id⟩, ⟨1, 0, false, none⟩],
        queue := [], activeJobs := [j0], initialized := true } := rfl

theorem addedState_big (j0 j1 : WorkerJob) (js : List WorkerJob) :
    addedState (j0 :: j1 :: js) =
      { workers := [⟨0, 0, true, some j0.id⟩, ⟨1, 0, true, some j1.id⟩],
        queue := js, activeJobs := [j0, j1], initialized := true } := by
  unfold addedState
  simp only [List.length_cons, List.getElem?_cons_zero, List.getElem?_cons_succ,
    Option.map_some, Option.map_some', List.take_succ_cons, List.take_zero,
    List.drop_succ_cons, List.drop_zero, List.take_cons]
  have h1 : decide (1 ≤ js.length + 1 + 1) = true := by simp
  have h2 : decide (2 ≤ js.length + 1 + 1) = true := by simp
  simp_all

theorem runOps_adds (jobs : List WorkerJob)
    (hread : ∀ j ∈ jobs, j.fileReadable = true)
    (hnodup : (jobs.map WorkerJob.id).Nodup) :
    (runOps initPool (jobs.map PoolOp.add)).1 = addedState jobs := by
  induction jobs using List.reverseRecOn with
  | nil => rfl
  | append_singleton js j ih =>
      have hreadjs : ∀ x ∈ js, x.fileReadable = true := fun x hx => hread x (by simp [hx])
      have hnodupjs : (js.map WorkerJob.id).Nodup := by
        rw [List.map_append] at hnodup
        exact hnodup.of_append_left
      have hrj : j.fileReadable = true := hread j (by simp)
      have hji : ∀ x ∈ js, x.id ≠ j.id := by
        rw [List.map_append] at hnodup
        intro x hx heq
        have hd := List.disjoint_of_nodup_append hnodup
        exact hd (List.mem_map_of_mem WorkerJob.id hx) (by simp [heq])
      rw [List.map_append, runOps_append, ih hreadjs hnodupjs]
      show (stepOp (addedState js) (PoolOp.add j)).1 = addedState (js ++ [j])
      rcases js with _ | ⟨j0, _ | ⟨j1, js1⟩⟩
      · -- no job yet: j goes to slot 0
        simp only [stepOp, addJob, addedState_nil, if_true]
        rw [processNext_dispatch _ ⟨0, 0, false, none⟩ j [] (by exact rfl) rfl hrj]
        simp [addedState_one, updateWorker, mapSet]
      · -- one job active on slot 0: j goes to slot 1
        simp only [stepOp, addJob, addedState_one, if_true]
        rw [processNext_dispatch _ ⟨1, 0, false, none⟩ j [] (by exact rfl) rfl hrj]
        have hne : ¬j0.id = j.id := by simpa using hji j0 (by simp)
        simp [addedState_big, updateWorker, mapSet, hne]
      · -- both slots busy: j stays queued
        simp only [stepOp, addJob, addedState_big, if_true]
        rw [processNext_no_free _ (by exact rfl)]
        simp [addedState_big]

theorem getElem?_updateWorker (ws : List WorkerWrapper) (wid : Nat)
    (f : WorkerWrapper → WorkerWrapper) (k : Nat) :
    (updateWorker ws wid f)[k]? = (ws[k]?).map fun w => if w.id = wid then f w else w := by
  unfold updateWorker
  exact List.getElem?_map _ _ _

theorem processNext_workers_get (s : PoolState) (k : Nat) (w0 : WorkerWrapper)
    (h : s.workers[k]? = some w0) :
    ∃ w2, (processNext s).1.workers[k]? = some w2 ∧ w2.id = w0.id ∧ w2.gen = w0.gen ∧
      (w2 = w0 ∨ (w2.busy = true ∧ ∃ j ∈ s.queue, w2.currentJobId = some j.id) ∨
        (w2.busy = false ∧ w2.currentJobId = none)) := by
  induction s using processNext.induct generalizing k w0 with
  | case1 s hfind =>
      rw [processNext_no_free s hfind]
      exact ⟨w0, h, rfl, rfl, Or.inl rfl⟩
  | case2 s fw hfind hq =>
      rw [processNext_empty_queue s hq]
      exact ⟨w0, h, rfl, rfl, Or.inl rfl⟩
  | case3 s fw hfind job rest hq hr =>
      rw [processNext_dispatch s fw job rest hfind hq hr]
      dsimp only
      rw [getElem?_updateWorker, h]
      by_cases hid : w0.id = fw.id
      · rw [Option.map_some']
        rw [if_pos hid]
        exact ⟨_, rfl, rfl, rfl, Or.inr (Or.inl ⟨rfl, job, by simp [hq], rfl⟩)⟩
      · rw [Option.map_some']
        rw [if_neg hid]
        exact ⟨_, rfl, rfl, rfl, Or.inl rfl⟩
  | case4 s fw hfind job rest hq hr ih =>
      rw [processNext_dispatch_fail s fw job rest hfind hq (by simpa using hr)]
      dsimp only
      have hmid :
          (updateWorker (updateWorker s.workers fw.id fun w =>
              { w with busy := true, currentJobId := some job.id })
            fw.id (fun w => { w with busy := false, currentJobId := none }))[k]? =
          some (if w0.id = fw.id then { w0 with busy := false, currentJobId := none } else w0) := by
        rw [getElem?_updateWorker, getElem?_updateWorker, h]
        by_cases hid : w0.id = fw.id
        · simp [hid]
        · simp [hid]
      rcases ih k _ hmid with ⟨w2, hw2, hid2, hgen2, hcase2⟩
      refine ⟨w2, hw2, ?_, ?_, ?_⟩
      · rw [hid2]; by_cases hid : w0.id = fw.id <;> simp [hid]
      · rw [hgen2]; by_cases hid : w0.id = fw.id <;> simp [hid]
      · rcases hcase2 with h2 | h2 | h2
        · by_cases hid : w0.id = fw.id
          · rw [if_pos hid] at h2
            subst h2
            exact Or.inr (Or.inr ⟨rfl, rfl⟩)
          · rw [if_neg hid] at h2
            exact Or.inl h2
        · rcases h2 with ⟨hb, j, hj, hcur⟩
          refine Or.inr (Or.inl ⟨hb, j, ?_, hcur⟩)
          simp only [hq, List.mem_cons]
          right
          simpa using hj
        · exact Or.inr (Or.inr h2)

theorem mem_mapSet_of_ne (m : List WorkerJob) (x j : WorkerJob)
    (hj : j ∈ m) (hne : j.id ≠ x.id) : j ∈ mapSet m x := by
  unfold mapSet
  split
  · have : (fun y => if y.id = x.id then x else y) j = j := by simp [hne]
    rw [← this]
    exact List.mem_map_of_mem _ hj
  · exact List.mem_append.mpr (Or.inl hj)

theorem processNext_quiet (s : PoolState) (id : JobId)
    (hqueue : ∀ j ∈ s.queue, j.id ≠ id) (hactive : ∀ j ∈ s.activeJobs, j.id ≠ id) :
    (∀ j ∈ (processNext s).1.queue, j.id ≠ id)
    ∧ (∀ j ∈ (processNext s).1.activeJobs, j.id ≠ id)
    ∧ (∀ e ∈ (processNext s).2, e.jobId ≠ id) := by
  refine ⟨fun j hj => hqueue j (processNext_queue_sub s j hj), fun j hj => ?_, fun e he => ?_⟩
  · rcases processNext_active s j hj with h1 | h1
    · exact hactive j h1
    · exact hqueue j h1
  · rcases processNext_events s e he with ⟨j, hj, hje⟩
    rw [hje]
    exact hqueue j hj

theorem cancelJob_quiet (s : PoolState) (id : JobId) :
    (∀ j ∈ (cancelJob s id).1.queue, j.id ≠ id)
    ∧ (∀ j ∈ (cancelJob s id).1.activeJobs, j.id ≠ id)
    ∧ (∀ e ∈ (cancelJob s id).2, e.jobId ≠ id) := by
  simp only [cancelJob]
  have hfq : ∀ j ∈ s.queue.filter (fun j => j.id ≠ id), j.id ≠ id := by
    intro j hj
    have := List.mem_filter.mp hj
    simpa using this.2
  split
  · next hactive =>
      split
      · next w hfw =>
          exact processNext_quiet _ id hfq (fun j hj => (mem_mapDelete _ _ _ hj).2)
      · next hfw =>
          exact ⟨hfq, fun j hj => (mem_mapDelete _ _ _ hj).2, by simp⟩
  · next hactive =>
      refine ⟨hfq, fun j hj heq => hactive ?_, by simp⟩
      exact List.any_eq_true.mpr ⟨j, hj, by simp [heq]⟩

theorem cancelJob_resets_slot (s : PoolState) (id : JobId) (k : Nat) (w : WorkerWrapper)
    (hk : s.workers[k]? = some w) (hcur : w.currentJobId = some id)
    (huniq : ∀ w2 ∈ s.workers, w2.currentJobId = some id → w2 = w)
    (hactive : s.activeJobs.any (fun j => j.id = id) = true) :
    ∃ w2, (cancelJob s id).1.workers[k]? = some w2 ∧ w2.id = w.id ∧ w2.gen = w.gen + 1 ∧
      w2.currentJobId ≠ some id ∧
      ((w2.busy = false ∧ w2.currentJobId = none) ∨
        (w2.busy = true ∧ ∃ j ∈ s.queue, j.id ≠ id ∧ w2.currentJobId = some j.id)) := by
  simp only [cancelJob]
  rw [if_pos hactive]
  have hwmem : w ∈ s.workers := List.getElem?_mem hk
  split
  · next wf hfw =>
      have hwf : wf = w := by
        have hmem := List.mem_of_find?_eq_some hfw
        have hpred := List.find?_some hfw
        exact huniq wf hmem (by simpa using hpred)
      subst hwf
      have hmid :
          (updateWorker s.workers wf.id fun ww =>
            { ww with gen := ww.gen + 1, busy := false, currentJobId := none })[k]? =
          some { wf with gen := wf.gen + 1, busy := false, currentJobId := none } := by
        rw [getElem?_updateWorker, hk]
        simp
      rcases processNext_workers_get
          { s with
            queue := s.queue.filter fun j => j.id ≠ id,
            activeJobs := mapDelete s.activeJobs id,
            workers := updateWorker s.workers wf.id fun ww =>
              { ww with gen := ww.gen + 1, busy := false, currentJobId := none } }
          k { wf with gen := wf.gen + 1, busy := false, currentJobId := none } hmid
        with ⟨w2, hw2, hid2, hgen2, hcase2⟩
      refine ⟨w2, hw2, by simpa using hid2, by simpa using hgen2, ?_, ?_⟩
      · rcases hcase2 with h2 | h2 | h2
        · rw [h2]; simp
        · rcases h2 with ⟨hb, j, hj, hcurj⟩
          have hjq := List.mem_filter.mp hj
          rw [hcurj]
          intro hcontra
          have : j.id = id := by injection hcontra
          simp [this] at hjq
        · rw [h2.2]; simp
      · rcases hcase2 with h2 | h2 | h2
        · rw [h2]; left; exact ⟨rfl, rfl⟩
        · rcases h2 with ⟨hb, j, hj, hcurj⟩
          have hjq := List.mem_filter.mp hj
          right
          exact ⟨hb, j, hjq.1, by simpa using hjq.2, hcurj⟩
        · left; exact h2
  · next hfw =>
      exfalso
      have := List.find?_eq_none.mp hfw w hwmem
      simp [hcur] at this

theorem stepOp_quiet (s : PoolState) (op : PoolOp) (id : JobId)
    (hqueue : ∀ j ∈ s.queue, j.id ≠ id) (hactive : ∀ j ∈ s.activeJobs, j.id ≠ id)
    (hop : ∀ j, op = PoolOp.add j → j.id ≠ id) :
    (∀ j ∈ (stepOp s op).1.queue, j.id ≠ id)
    ∧ (∀ j ∈ (stepOp s op).1.activeJobs, j.id ≠ id)
    ∧ (∀ e ∈ (stepOp s op).2, e.jobId ≠ id) := by
  cases op with
  | add job =>
      have hjob : job.id ≠ id := hop job rfl
      simp only [stepOp, addJob]
      have hq2 : ∀ j ∈ ((if s.initialized = true then s
          else { s with workers := initPool.workers, initialized := true }).queue ++ [job]),
          j.id ≠ id := by
        intro j hj
        rcases List.mem_append.mp hj with h1 | h1
        · split at h1
          · exact hqueue j h1
          · exact hqueue j h1
        · simp at h1
          rw [h1]
          exact hjob
      have ha2 : ∀ j ∈ (if s.initialized = true then s
          else { s with workers := initPool.workers, initialized := true }).activeJobs,
          j.id ≠ id := by
        intro j hj
        split at hj
        · exact hactive j hj
        · exact hactive j hj
      exact processNext_quiet _ id hq2 ha2
  | cancel cid =>
      simp only [stepOp, cancelJob]
      have hfq : ∀ j ∈ s.queue.filter (fun j => j.id ≠ cid), j.id ≠ id := by
        intro j hj
        exact hqueue j (List.mem_filter.mp hj).1
      split
      · split
        · next w hfw =>
            exact processNext_quiet _ id hfq
              (fun j hj => hactive j (mem_mapDelete _ _ _ hj).1)
        · exact ⟨hfq, fun j hj => hactive j (mem_mapDelete _ _ _ hj).1, by simp⟩
      · exact ⟨hfq, hactive, by simp⟩
  | message wid resp =>
      simp only [stepOp, handleMessage]
      split
      · exact ⟨hqueue, hactive, by simp⟩
      · split
        · exact ⟨hqueue, hactive, by simp⟩
        · next jobId hcur =>
            cases hget : mapGet s.activeJobs jobId with
            | none => exact ⟨hqueue, hactive, by simp⟩
            | some job =>
                have hjobmem : job ∈ s.activeJobs ∧ job.id = jobId := by
                  unfold mapGet at hget
                  exact ⟨List.mem_of_find?_eq_some hget, by simpa using List.find?_some hget⟩
                have hjid : jobId ≠ id := by
                  rw [← hjobmem.2]
                  exact hactive job hjobmem.1
                cases resp with
                | progress percent stage =>
                    refine ⟨hqueue, hactive, ?_⟩
                    intro e he
                    simp at he
                    rw [he]
                    simpa [PoolEvent.jobId] using hjid
                | complete =>
                    have hrel := processNext_quiet
                      { s with
                        activeJobs := mapDelete s.activeJobs jobId,
                        workers := updateWorker s.workers wid fun w =>
                          { w with busy := false, currentJobId := none } } id
                      hqueue (fun j hj => hactive j (mem_mapDelete _ _ _ hj).1)
                    refine ⟨hrel.1, hrel.2.1, ?_⟩
                    intro e he
                    simp only [releaseWorker, List.mem_cons] at he
                    rcases he with he | he
                    · rw [he]; simpa [PoolEvent.jobId] using hjid
                    · exact hrel.2.2 e he
                | error msg =>
                    have hrel := processNext_quiet
                      { s with
                        activeJobs := mapDelete s.activeJobs jobId,
                        workers := updateWorker s.workers wid fun w =>
                          { w with busy := false, currentJobId := none } } id
                      hqueue (fun j hj => hactive j (mem_mapDelete _ _ _ hj).1)
                    refine ⟨hrel.1, hrel.2.1, ?_⟩
                    intro e he
                    simp only [releaseWorker, List.mem_cons] at he
                    rcases he with he | he
                    · rw [he]; simpa [PoolEvent.jobId] using hjid
                    · exact hrel.2.2 e he
                | ready => exact ⟨hqueue, hactive, by simp⟩

theorem runOps_quiet (ops : List PoolOp) (s : PoolState) (id : JobId)
    (hqueue : ∀ j ∈ s.queue, j.id ≠ id) (hactive : ∀ j ∈ s.activeJobs, j.id ≠ id)
    (hops : ∀ op ∈ ops, ∀ j, op = PoolOp.add j → j.id ≠ id) :
    (∀ j ∈ (runOps s ops).1.queue, j.id ≠ id)
    ∧ (∀ j ∈ (runOps s ops).1.activeJobs, j.id ≠ id)
    ∧ (∀ e ∈ (runOps s ops).2, e.jobId ≠ id) := by
  induction ops generalizing s with
  | nil => exact ⟨hqueue, hactive, by simp [runOps]⟩
  | cons op ops ih =>
      simp only [runOps]
      have hstep := stepOp_quiet s op id hqueue hactive (hops op (by simp))
      have hrest := ih (stepOp s op).1 hstep.1 hstep.2.1
        (fun op2 h2 => hops op2 (by simp [h2]))
      refine ⟨hrest.1, hrest.2.1, ?_⟩
      intro e he
      rcases List.mem_append.mp he with h1 | h1
      · exact hstep.2.2 e h1
      · exact hrest.2.2 e h1

/-! StuckActive preservation: a job left in `activeJobs` with no slot
computing it and no queue entry for it stays there under every operation
that neither re-adds nor cancels that id. -/

theorem processNext_stuck (s : PoolState) (id : JobId) :
    StuckActive id s → StuckActive id (processNext s).1 := by
  induction s using processNext.induct with
  | case1 s hfind => intro h; rwa [processNext_no_free s hfind]
  | case2 s fw hfind hq => intro h; rwa [processNext_empty_queue s hq]
  | case3 s fw hfind job rest hq hr =>
      intro h
      obtain ⟨⟨ja, hja, hjaid⟩, hqueue, hworkers⟩ := h
      rw [processNext_dispatch s fw job rest hfind hq hr]
      refine ⟨⟨ja, ?_, hjaid⟩, ?_, ?_⟩
      · refine mem_mapSet_of_ne _ _ _ hja ?_
        rw [hjaid]
        exact fun hc => hqueue job (by simp [hq]) hc.symm
      · intro j hj
        exact hqueue j (by simp [hq]; right; simpa using hj)
      · intro w hw
        rcases mem_updateWorker _ _ _ _ hw with ⟨w0, hw0, hcond⟩
        by_cases hid : w0.id = fw.id
        · rw [if_pos hid] at hcond
          rw [hcond]
          intro hc
          have : job.id = id := by injection hc
          exact hqueue job (by simp [hq]) this
        · rw [if_neg hid] at hcond
          rw [hcond]
          exact hworkers w0 hw0
  | case4 s fw hfind job rest hq hr ih =>
      intro h
      obtain ⟨⟨ja, hja, hjaid⟩, hqueue, hworkers⟩ := h
      rw [processNext_dispatch_fail s fw job rest hfind hq (by simpa using hr)]
      dsimp only
      apply ih
      refine ⟨⟨ja, ?_, hjaid⟩, ?_, ?_⟩
      · refine mem_mapSet_of_ne _ _ _ hja ?_
        rw [hjaid]
        exact fun hc => hqueue job (by simp [hq]) hc.symm
      · intro j hj
        exact hqueue j (by simp [hq]; right; simpa using hj)
      · intro w hw
        rcases mem_updateWorker _ _ _ _ hw with ⟨w2, hw2, hcond2⟩
        rcases mem_updateWorker _ _ _ _ hw2 with ⟨w0, hw0, hcond0⟩
        by_cases hid2 : w2.id = fw.id
        · rw [if_pos hid2] at hcond2
          rw [hcond2]
          simp
        · rw [if_neg hid2] at hcond2
          rw [hcond2]
          by_cases hid0 : w0.id = fw.id
          · rw [if_pos hid0] at hcond0
            rw [hcond0]
            intro hc
            have : job.id = id := by injection hc
            exact hqueue job (by simp [hq]) this
          · rw [if_neg hid0] at hcond0
            rw [hcond0]
            exact hworkers w0 hw0

theorem stepOp_stuck (s : PoolState) (op : PoolOp) (id : JobId)
    (h : StuckActive id s) (hop : opTouchesJob id op = false) :
    StuckActive id (stepOp s op).1 := by
  obtain ⟨⟨ja, hja, hjaid⟩, hqueue, hworkers⟩ := h
  cases op with
  | add job =>
      have hjob : ¬job.id = id := by simpa [opTouchesJob] using hop
      simp only [stepOp, addJob]
      apply processNext_stuck
      refine ⟨⟨ja, ?_, hjaid⟩, ?_, ?_⟩
      · split
        · exact hja
        · exact hja
      · intro j hj
        split at hj
        · rcases List.mem_append.mp hj with h1 | h1
          · exact hqueue j h1
          · simp at h1; rw [h1]; exact hjob
        · rcases List.mem_append.mp hj with h1 | h1
          · exact hqueue j h1
          · simp at h1; rw [h1]; exact hjob
      · intro w hw
        split at hw
        · exact hworkers w hw
        · next hinit =>
            simp only [initPool] at hw
            rcases List.mem_map.mp hw with ⟨i, _, hwi⟩
            rw [← hwi]
            simp
  | cancel cid =>
      have hcid : ¬cid = id := by simpa [opTouchesJob] using hop
      simp only [stepOp, cancelJob]
      have hq2 : ∀ j ∈ s.queue.filter (fun j => j.id ≠ cid), j.id ≠ id :=
        fun j hj => hqueue j (List.mem_filter.mp hj).1
      have hja2 : ja ∈ mapDelete s.activeJobs cid := by
        unfold mapDelete
        refine List.mem_filter.mpr ⟨hja, ?_⟩
        have : ja.id ≠ cid := by rw [hjaid]; exact fun hc => hcid hc.symm
        simp [this]
      split
      · split
        · next w hfw =>
            apply processNext_stuck
            refine ⟨⟨ja, hja2, hjaid⟩, hq2, ?_⟩
            intro w2 hw2
            rcases mem_updateWorker _ _ _ _ hw2 with ⟨w0, hw0, hcond⟩
            by_cases hid : w0.id = w.id
            · rw [if_pos hid] at hcond; rw [hcond]; simp
            · rw [if_neg hid] at hcond; rw [hcond]; exact hworkers w0 hw0
        · exact ⟨⟨ja, hja2, hjaid⟩, hq2, hworkers⟩
      · exact ⟨⟨ja, hja, hjaid⟩, hq2, hworkers⟩
  | message wid resp =>
      simp only [stepOp, handleMessage]
      split
      · exact ⟨⟨ja, hja, hjaid⟩, hqueue, hworkers⟩
      · next workerW hfindW =>
          split
          · exact ⟨⟨ja, hja, hjaid⟩, hqueue, hworkers⟩
          · next jobId hcur =>
              have hwmem := List.mem_of_find?_eq_some hfindW
              have hjid : jobId ≠ id := by
                intro hcontra
                refine hworkers workerW hwmem ?_
                rw [hcur, hcontra]
              have hstuck2 : StuckActive id
                  { s with
                    activeJobs := mapDelete s.activeJobs jobId,
                    workers := updateWorker s.workers wid fun w =>
                      { w with busy := false, currentJobId := none } } := by
                refine ⟨⟨ja, ?_, hjaid⟩, hqueue, ?_⟩
                · unfold mapDelete
                  refine List.mem_filter.mpr ⟨hja, ?_⟩
                  simp [hjaid, hjid.symm]
                · intro w hw
                  rcases mem_updateWorker _ _ _ _ hw with ⟨w0, hw0, hcond⟩
                  by_cases hid : w0.id = wid
                  · rw [if_pos hid] at hcond; rw [hcond]; simp
                  · rw [if_neg hid] at hcond; rw [hcond]; exact hworkers w0 hw0
              cases hget : mapGet s.activeJobs jobId with
              | none => exact ⟨⟨ja, hja, hjaid⟩, hqueue, hworkers⟩
              | some job =>
                  cases resp with
                  | progress percent stage => exact ⟨⟨ja, hja, hjaid⟩, hqueue, hworkers⟩
                  | ready => exact ⟨⟨ja, hja, hjaid⟩, hqueue, hworkers⟩
                  | complete => exact processNext_stuck _ id hstuck2
                  | error msg => exact processNext_stuck _ id hstuck2
theorem runOps_stuck (ops : List PoolOp) (s : PoolState) (id : JobId)
    (h : StuckActive id s) (hops : ∀ op ∈ ops, opTouchesJob id op = false) :
    StuckActive id (runOps s ops).1 := by
  induction ops generalizing s with
  | nil => exact h
  | cons op ops ih =>
      simp only [runOps]
      exact ih (stepOp s op).1 (stepOp_stuck s op id h (hops op (by simp)))
        (fun op2 h2 => hops op2 (by simp [h2]))

/-- C2: `removeSpecificColor` sets a pixel's alpha to 0 exactly when its
squared distance to the target is at most `tolerance² * 3`, leaves the
pixel unchanged otherwise, never touches RGB, and does this pixelwise over
the image; with tolerance 0 a pixel equal to `#00FF00` becomes transparent
while a pixel at squared distance 1 keeps alpha 255. -/
theorem removeSpecificColor_chromaKey :
    (∀ (targetR targetG targetB : Nat) (tolerance : ℚ) (p : Pixel),
      ((colorDistanceSquared targetR targetG targetB p : ℚ) ≤ tolerance * tolerance * 3 →
        removeColorPixel targetR targetG targetB tolerance p = { p with a := 0 })
      ∧ (¬ (colorDistanceSquared targetR targetG targetB p : ℚ) ≤ tolerance * tolerance * 3 →
        removeColorPixel targetR targetG targetB tolerance p = p)
      ∧ (p.a ≠ 0 →
          ((removeColorPixel targetR targetG targetB tolerance p).a = 0 ↔
            (colorDistanceSquared targetR targetG targetB p : ℚ) ≤ tolerance * tolerance * 3)))
    ∧ (∀ (targetColor : String) (tolerance : ℚ) (img : Image),
        removeSpecificColor targetColor tolerance img =
          img.map (removeColorPixel (parseHexColor targetColor).1
            (parseHexColor targetColor).2.1 (parseHexColor targetColor).2.2 tolerance))
    ∧ parseHexColor "#00FF00" = (0, 255, 0)
    ∧ removeColorPixel 0 255 0 0 ⟨0, 255, 0, 255⟩ = ⟨0, 255, 0, 0⟩
    ∧ removeColorPixel 0 255 0 0 ⟨1, 255, 0, 255⟩ = ⟨1, 255, 0, 255⟩ := by
  refine ⟨fun tr tg tb tol p => ⟨fun hle => ?_, fun hgt => ?_, fun ha => ⟨fun h0 => ?_, fun hle => ?_⟩⟩,
    fun tc tol img => rfl, rfl, ?_, ?_⟩
  · simp [removeColorPixel, hle]
  · simp [removeColorPixel, hgt]
  · by_contra hgt
    simp [removeColorPixel, hgt] at h0
    exact ha h0
  · simp [removeColorPixel, hle]
  · simp [removeColorPixel, colorDistanceSquared]
  · simp [removeColorPixel, colorDistanceSquared]

/-- Witness for C2: tolerance 10 and pixel (5,250,3) against target
(0,255,0), squared distance 59 ≤ 300, so the alpha is cleared. -/
theorem removeSpecificColor_chromaKey_witness :
    removeColorPixel 0 255 0 10 ⟨5, 250, 3, 255⟩ = { r := 5, g := 250, b := 3, a := 0 } :=
  (removeSpecificColor_chromaKey.1 0 255 0 10 ⟨5, 250, 3, 255⟩).1 (by norm_num [colorDistanceSquared])

/-- C3: the sharp/blur mask composite takes RGB from the sharp original
when the mask alpha is strictly above 128 and from the blurred copy
otherwise, always forcing alpha 255; it acts pixelwise at each index, and
the cutoff is a hard threshold (129 selects sharp, 128 selects blurred). -/
theorem blurBackgroundOnly_maskThreshold :
    (∀ (maskPx sharpPx blurredPx : Pixel),
      (128 < maskPx.a →
        compositePixel maskPx sharpPx blurredPx =
          { r := sharpPx.r, g := sharpPx.g, b := sharpPx.b, a := 255 })
      ∧ (maskPx.a ≤ 128 →
        compositePixel maskPx sharpPx blurredPx =
          { r := blurredPx.r, g := blurredPx.g, b := blurredPx.b, a := 255 }))
    ∧ (∀ (mask sharp blurred : Image) (i : Nat) (m s b : Pixel),
        mask[i]? = some m → sharp[i]? = some s → blurred[i]? = some b →
        (blurBackgroundComposite mask sharp blurred)[i]? = some (compositePixel m s b))
    ∧ (∀ sharpPx blurredPx : Pixel,
        compositePixel ⟨0, 0, 0, 129⟩ sharpPx blurredPx =
          { r := sharpPx.r, g := sharpPx.g, b := sharpPx.b, a := 255 }
      ∧ compositePixel ⟨0, 0, 0, 128⟩ sharpPx blurredPx =
          { r := blurredPx.r, g := blurredPx.g, b := blurredPx.b, a := 255 }) := by
  refine ⟨fun m s b => ⟨fun h => ?_, fun h => ?_⟩, fun mask => ?_, fun s b => ⟨?_, ?_⟩⟩
  · simp [compositePixel, h]
  · simp [compositePixel, Nat.not_lt.mpr h]
  · induction mask with
    | nil => intro sharp blurred i m s b hm; simp at hm
    | cons mp mrest ih =>
        intro sharp blurred i m s b hm hs hb
        cases sharp with
        | nil => simp at hs
        | cons sp srest =>
          cases blurred with
          | nil => simp at hb
          | cons bp brest =>
            cases i with
            | zero =>
                simp only [List.getElem?_cons_zero, Option.some.injEq] at hm hs hb
                subst hm hs hb
                simp [blurBackgroundComposite]
            | succ n =>
                simp only [List.getElem?_cons_succ] at hm hs hb
                simpa [blurBackgroundComposite] using ih srest brest n m s b hm hs hb
  · simp [compositePixel]
  · simp [compositePixel]

/-- Witness for C3: a mask pixel with alpha 200 picks the sharp pixel. -/
theorem blurBackgroundOnly_maskThreshold_witness :
    compositePixel ⟨9, 9, 9, 200⟩ ⟨1, 2, 3, 40⟩ ⟨7, 8, 9, 50⟩ = { r := 1, g := 2, b := 3, a := 255 } :=
  (blurBackgroundOnly_maskThreshold.1 ⟨9, 9, 9, 200⟩ ⟨1, 2, 3, 40⟩ ⟨7, 8, 9, 50⟩).1 (by decide)

/-- C7 counterexample: the Render Engine's own filter does not use the
quadratic contrast factor of the claimed formula.  At contrast 1 and the
gray pixel (102,102,102), `RenderEngine.applyFilter` produces channel value
76.5 while the claimed formula (with `(1+contrast)^2` and a temperature
step) produces 25.5. -/
theorem renderEngine_filter_formula_counterexample :
    applyFilterPixel
        { brightness := 0, contrast := 1, saturation := 0, temperature := 0, intensity := 1 }
        102 102 102 ≠
      specFilterPixel
        { brightness := 0, contrast := 1, saturation := 0, temperature := 0,
          hue := 0, exposure := 0, vignette := 0, grain := 0, sharpness := 0 }
        1 102 102 102 := by
  intro h
  have h1 := congrArg Prod.fst h
  simp only [applyFilterPixel, specFilterPixel, mapChannels, saturationStep, contrastStep,
    brightnessStep, exposureStep, temperatureStep, clamp255] at h1
  norm_num [min_def, max_def] at h1

/-- C7 (amended): the Render Engine's `applyFilter` transforms each channel
in the order brightness, contrast with the linear factor `1 + contrast`,
saturation, clamp — with no exposure and no temperature step; the
standalone `applyFilters` of the filter-effects module (which the Render
Engine does not call) is the function that implements the specification's
formula: exposure, brightness, contrast with factor `(1 + contrast)^2`,
saturation, temperature (`r += t*30; b -= t*30` when nonzero), clamp. -/
theorem filter_pixel_formulas :
    (∀ (params : FilterEffectParams) (r g b : ℚ),
      applyFilterPixel params r g b =
        mapChannels clamp255
          (saturationStep (1 + params.saturation)
            (mapChannels (contrastStep (1 + params.contrast))
              (mapChannels (brightnessStep (1 + params.brightness)) (r, g, b)))))
    ∧ (∀ (p : FilterParams) (exposureFactor r g b : ℚ),
        applyFiltersPixel p exposureFactor r g b = specFilterPixel p exposureFactor r g b) :=
  ⟨fun _ _ _ _ => rfl, fun _ _ _ _ _ => rfl⟩

/-- C9: commands of type ADD_LAYER, REMOVE_LAYER and SET_BACKGROUND fall
through `applyCommand`'s switch to the default branch, so applying,
undoing or redoing them never changes the editor state. -/
theorem applyCommand_ignored_types (s : EditorState) (c : Command) (reverse : Bool)
    (h : c.type = CommandType.ADD_LAYER ∨ c.type = CommandType.REMOVE_LAYER ∨
      c.type = CommandType.SET_BACKGROUND) :
    applyCommand s c reverse = s := by
  rcases h with h | h | h <;> simp [applyCommand, h]

/-- Witness for C9: an ADD_LAYER command leaves a concrete state unchanged. -/
theorem applyCommand_ignored_types_witness :
    applyCommand
      ⟨"s", "k", none, 1, 1, [], [], .removeOnly, 800, 1⟩
      ⟨.ADD_LAYER, 0, ⟨"t", .vNull, .vNull⟩⟩ true =
      ⟨"s", "k", none, 1, 1, [], [], .removeOnly, 800, 1⟩ :=
  applyCommand_ignored_types _ _ _ (Or.inl rfl)

/-- C5: for every command and every state consistent with having executed
it (as the states the history replays are), undo followed by redo restores
the state exactly: `applyCommand (applyCommand s c true) c false = s`. -/
theorem undoRedo_roundTrip (s : EditorState) (c : Command) (h : executedConsistent s c) :
    applyCommand (applyCommand s c true) c false = s := by
  obtain ⟨ctype, ts, tid, pv, v⟩ := c
  obtain ⟨sid, okey, amask, cw, ch, layers, effects, pm, pq, exq⟩ := s
  cases ctype with
  | SET_EFFECT =>
      simp only [executedConsistent] at h
      simp only [applyCommand]
      simp only [EditorState.mk.injEq, true_and, and_true]
      rw [List.map_map]
      apply list_map_id_of_mem
      intro x hx
      by_cases hid : x.id = tid
      · simp [Function.comp, ← h x hx hid, ← hid]
      · simp [Function.comp, hid]
  | ADD_EFFECT =>
      simp only [executedConsistent] at h
      obtain ⟨hid, es, heq, hne⟩ := h
      subst heq
      simp [applyCommand, List.filter_append, hid]
      exact hne
  | REMOVE_EFFECT =>
      simp only [executedConsistent] at h
      obtain ⟨hid, hall⟩ := h
      simp [applyCommand, List.filter_append, hid]
      exact hall
  | TOGGLE_EFFECT =>
      simp only [executedConsistent] at h
      simp only [applyCommand]
      simp only [EditorState.mk.injEq, true_and, and_true]
      rw [List.map_map]
      apply list_map_id_of_mem
      intro x hx
      by_cases hid : x.id = tid
      · simp [Function.comp, ← h x hx hid, ← hid]
      · simp [Function.comp, hid]
  | SET_LAYER =>
      simp only [executedConsistent] at h
      simp only [applyCommand]
      simp only [EditorState.mk.injEq, true_and, and_true]
      rw [List.map_map]
      apply list_map_id_of_mem
      intro x hx
      by_cases hid : x.id = tid
      · simp [Function.comp, ← h x hx hid, ← hid]
      · simp [Function.comp, hid]
  | TOGGLE_LAYER =>
      simp only [executedConsistent] at h
      simp only [applyCommand]
      simp only [EditorState.mk.injEq, true_and, and_true]
      rw [List.map_map]
      apply list_map_id_of_mem
      intro x hx
      by_cases hid : x.id = tid
      · simp [Function.comp, ← h x hx hid, ← hid]
      · simp [Function.comp, hid]
  | SET_TRANSFORM =>
      simp only [executedConsistent] at h
      simp only [applyCommand]
      simp only [EditorState.mk.injEq, true_and, and_true]
      rw [List.map_map]
      apply list_map_id_of_mem
      intro x hx
      by_cases hid : x.id = tid
      · simp [Function.comp, ← h x hx hid, ← hid]
      · simp [Function.comp, hid]
  | ADD_LAYER => rfl
  | REMOVE_LAYER => rfl
  | SET_BACKGROUND => rfl

/-- Witness for C5: undo then redo of a concrete TOGGLE_EFFECT command on a
consistent concrete state is the identity. -/
theorem undoRedo_roundTrip_witness :
    applyCommand
      (applyCommand
        ⟨"s", "k", none, 2, 2, [],
          [⟨"e1", .blur, [("radius", .num (3/100))], true⟩], .removeBlur, 800, 1⟩
        ⟨.TOGGLE_EFFECT, 5, ⟨"e1", .vFlag false, .vFlag true⟩⟩ true)
      ⟨.TOGGLE_EFFECT, 5, ⟨"e1", .vFlag false, .vFlag true⟩⟩ false =
      ⟨"s", "k", none, 2, 2, [],
        [⟨"e1", .blur, [("radius", .num (3/100))], true⟩], .removeBlur, 800, 1⟩ :=
  undoRedo_roundTrip _ _ (by intro e he hid; simp_all [CmdValue.asFlag])

/-- C6: executing a new command discards everything after the cursor —
the new log is (a suffix of) the prefix up to the cursor with the new
command appended — and `canRedo` is false immediately afterwards.  The
hypotheses state the invariants the class maintains: the cursor never
drops below -1 and the bound (hard-coded 50 in the source) is positive. -/
theorem execute_truncates (h : CommandHistory) (c : Command)
    (hwf : -1 ≤ h.currentIndex) (hmax : 1 ≤ h.maxHistory) :
    (h.execute c).canRedo = false
    ∧ (h.execute c).commands.getLast? = some c
    ∧ ∃ pre, (h.execute c).commands = pre ++ [c]
        ∧ ∃ dropped, dropped ++ pre = h.commands.take (h.currentIndex + 1).toNat := by
  obtain ⟨cmds, i, maxH⟩ := h
  dsimp only at hwf hmax
  have htake : (if i < (cmds.length : Int) - 1 then cmds.take (i + 1).toNat else cmds) =
      cmds.take (i + 1).toNat := by
    split
    · rfl
    · next hge => exact (List.take_of_length_le (by omega)).symm
  have h1 : (cmds.take (i + 1).toNat).length ≤ (i + 1).toNat :=
    List.length_take_le _ _
  simp only [CommandHistory.execute, CommandHistory.canRedo, htake]
  split
  · next hover =>
      rcases ht : cmds.take (i + 1).toNat with _ | ⟨x, xs⟩
      · rw [ht] at hover
        simp at hover
        omega
      · rw [ht] at h1
        refine ⟨?_, ?_, xs, rfl, [x], rfl⟩
        · simp only [decide_eq_false_iff_not]
          simp only [List.cons_append, List.tail_cons, List.length_append, List.length_cons,
            List.length_nil]
          simp only [List.length_cons] at h1
          omega
        · simp [List.getLast?_concat]
  · next hle =>
      refine ⟨?_, ?_, cmds.take (i + 1).toNat, rfl, [], rfl⟩
      · simp only [decide_eq_false_iff_not]
        simp only [List.length_append, List.length_cons, List.length_nil]
        omega
      · simp [List.getLast?_concat]

/-- Witness for C6: a history of two commands with the cursor after the
first (one undo performed) executes a third command; redo is disabled and
the log is the kept prefix plus the new command. -/
theorem execute_truncates_witness :
    (CommandHistory.execute
        ⟨[⟨.TOGGLE_LAYER, 0, ⟨"a", .vFlag false, .vFlag true⟩⟩,
          ⟨.TOGGLE_LAYER, 1, ⟨"b", .vFlag false, .vFlag true⟩⟩], 0, 50⟩
        ⟨.TOGGLE_LAYER, 2, ⟨"c", .vFlag false, .vFlag true⟩⟩).canRedo = false
    ∧ (CommandHistory.execute
        ⟨[⟨.TOGGLE_LAYER, 0, ⟨"a", .vFlag false, .vFlag true⟩⟩,
          ⟨.TOGGLE_LAYER, 1, ⟨"b", .vFlag false, .vFlag true⟩⟩], 0, 50⟩
        ⟨.TOGGLE_LAYER, 2, ⟨"c", .vFlag false, .vFlag true⟩⟩).commands.getLast? =
        some ⟨.TOGGLE_LAYER, 2, ⟨"c", .vFlag false, .vFlag true⟩⟩
    ∧ ∃ pre,
        (CommandHistory.execute
          ⟨[⟨.TOGGLE_LAYER, 0, ⟨"a", .vFlag false, .vFlag true⟩⟩,
            ⟨.TOGGLE_LAYER, 1, ⟨"b", .vFlag false, .vFlag true⟩⟩], 0, 50⟩
          ⟨.TOGGLE_LAYER, 2, ⟨"c", .vFlag false, .vFlag true⟩⟩).commands =
          pre ++ [⟨.TOGGLE_LAYER, 2, ⟨"c", .vFlag false, .vFlag true⟩⟩]
        ∧ ∃ dropped,
            dropped ++ pre =
              [⟨.TOGGLE_LAYER, 0, ⟨"a", .vFlag false, .vFlag true⟩⟩,
               ⟨.TOGGLE_LAYER, 1, ⟨"b", .vFlag false, .vFlag true⟩⟩].take ((0 : Int) + 1).toNat :=
  execute_truncates
    ⟨[⟨.TOGGLE_LAYER, 0, ⟨"a", .vFlag false, .vFlag true⟩⟩,
      ⟨.TOGGLE_LAYER, 1, ⟨"b", .vFlag false, .vFlag true⟩⟩], 0, 50⟩
    ⟨.TOGGLE_LAYER, 2, ⟨"c", .vFlag false, .vFlag true⟩⟩
    (by decide) (by decide)

/-- C8: a disabled effect node contributes nothing to the render — the
output equals the render of the state with that node removed, whatever the
canvas primitives do — and `toggleEffect` only flips the matching effect's
`enabled` flag, preserving the layer list, the effect count and every other
effect field. -/
theorem render_disabled_effect_noop :
    (∀ (ops : CanvasOps) (state : EditorState) (originalImage : Image)
        (alphaMask : Option Image) (origWidth origHeight : Nat) (options : RenderOptions)
        (pre post : List EffectNode) (e : EffectNode),
      state.effects = pre ++ e :: post → e.enabled = false →
      render ops state originalImage alphaMask origWidth origHeight options =
        render ops { state with effects := pre ++ post } originalImage alphaMask
          origWidth origHeight options)
    ∧ (∀ (state : EditorState) (effectId : String),
        (toggleEffect state effectId).layers = state.layers
      ∧ (toggleEffect state effectId).effects.length = state.effects.length
      ∧ (∀ (i : Nat) (e eT : EffectNode), state.effects[i]? = some e →
          (toggleEffect state effectId).effects[i]? = some eT →
          eT.id = e.id ∧ eT.type = e.type ∧ eT.params = e.params
          ∧ eT.enabled = (if e.id = effectId then !e.enabled else e.enabled))) := by
  constructor
  · intro ops state originalImage alphaMask ow oh options pre post e heq hdis
    simp only [render, heq]
    rw [List.foldl_append, List.foldl_append, List.foldl_cons, hdis]
    simp
  · intro state effectId
    refine ⟨rfl, by simp [toggleEffect], ?_⟩
    intro i e eT he heT
    simp only [toggleEffect, List.getElem?_map, he, Option.map_some, Option.map_some',
      Option.some.injEq] at heT
    by_cases hid : e.id = effectId
    · rw [if_pos hid] at heT
      subst heT
      simp [hid]
    · rw [if_neg hid] at heT
      subst heT
      simp [hid]

/-- Witness for C8: with inert canvas primitives, removing a disabled
shadow effect from a concrete one-effect state leaves the render equal. -/
theorem render_disabled_effect_noop_witness :
    render idCanvasOps
        ⟨"s", "k", none, 2, 2, [], [⟨"e1", .shadow, [], false⟩], .removeOnly, 800, 1⟩
        [] none 2 2 ⟨.preview, none, none⟩ =
      render idCanvasOps
        ⟨"s", "k", none, 2, 2, [], [], .removeOnly, 800, 1⟩
        [] none 2 2 ⟨.preview, none, none⟩ :=
  render_disabled_effect_noop.1 idCanvasOps
    ⟨"s", "k", none, 2, 2, [], [⟨"e1", .shadow, [], false⟩], .removeOnly, 800, 1⟩
    [] none 2 2 ⟨.preview, none, none⟩ [] [] ⟨"e1", .shadow, [], false⟩ rfl rfl

/-- C1: the number of busy execution slots never exceeds `MAX_CONCURRENCY`
along any operation sequence from a fresh pool; submitting N readable,
distinct jobs leaves `min N MAX_CONCURRENCY` slots busy with the excess
jobs in the FIFO queue; and when a slot completes, the head of the queue is
dispatched into the freed slot (queue advances from `drop 2` to `drop 3`,
both slots busy again). -/
theorem workerPool_concurrency_bound :
    (∀ ops : List PoolOp, busyCount (runOps initPool ops).1 ≤ MAX_CONCURRENCY)
    ∧ (∀ jobs : List WorkerJob, (∀ j ∈ jobs, j.fileReadable = true) →
        (jobs.map WorkerJob.id).Nodup →
        busyCount (runOps initPool (jobs.map PoolOp.add)).1 = min jobs.length MAX_CONCURRENCY
        ∧ (runOps initPool (jobs.map PoolOp.add)).1.queue = jobs.drop MAX_CONCURRENCY)
    ∧ (∀ jobs : List WorkerJob, (∀ j ∈ jobs, j.fileReadable = true) →
        (jobs.map WorkerJob.id).Nodup → 3 ≤ jobs.length →
        (handleMessage (runOps initPool (jobs.map PoolOp.add)).1 0 .complete).1.queue =
          jobs.drop 3
        ∧ busyCount
            (handleMessage (runOps initPool (jobs.map PoolOp.add)).1 0 .complete).1 =
          MAX_CONCURRENCY) := by
  refine ⟨?_, ?_, ?_⟩
  · intro ops
    have h := runOps_workers_length ops initPool rfl
    calc busyCount (runOps initPool ops).1
        ≤ ((runOps initPool ops).1).workers.length := List.length_filter_le _ _
      _ = MAX_CONCURRENCY := by rw [h.1]; rfl
  · intro jobs hread hnodup
    rw [runOps_adds jobs hread hnodup]
    rcases jobs with _ | ⟨j0, _ | ⟨j1, js1⟩⟩
    · simp [addedState_nil, busyCount, MAX_CONCURRENCY]
    · simp [addedState_one, busyCount, MAX_CONCURRENCY]
    · rw [addedState_big]
      simp [busyCount, MAX_CONCURRENCY]
  · intro jobs hread hnodup hlen
    rw [runOps_adds jobs hread hnodup]
    rcases jobs with _ | ⟨j0, _ | ⟨j1, _ | ⟨j2, js1⟩⟩⟩
    · simp at hlen
    · simp at hlen
    · simp at hlen
    · have hrj2 : j2.fileReadable = true := hread j2 (by simp)
      have hnods : j1.id ≠ j0.id ∧ j2.id ≠ j1.id := by
        simp [List.nodup_cons, List.mem_cons] at hnodup
        exact ⟨fun h => hnodup.1.1 h.symm, fun h => hnodup.2.1.1 h.symm⟩
      rw [addedState_big]
      unfold handleMessage
      rw [show (([⟨0, 0, true, some j0.id⟩, ⟨1, 0, true, some j1.id⟩] :
          List WorkerWrapper).find? (fun w => w.id = 0)) = some ⟨0, 0, true, some j0.id⟩
        from rfl]
      simp only [mapGet, mapDelete]
      rw [show (([j0, j1].find? fun x => x.id = j0.id)) = some j0 by simp]
      simp only [releaseWorker, updateWorker]
      have hfilter : ([j0, j1].filter fun x => x.id ≠ j0.id) = [j1] := by
        simp [hnods.1]
      rw [hfilter]
      rw [processNext_dispatch _ ⟨0, 0, false, none⟩ j2 js1 (by exact rfl) rfl hrj2]
      constructor
      · simp
      · simp [busyCount, updateWorker, MAX_CONCURRENCY]

/-- Witness for C1: three distinct readable jobs on a fresh pool leave two
slots busy and one job queued. -/
theorem workerPool_concurrency_bound_witness :
    busyCount (runOps initPool ([⟨"a", true⟩, ⟨"b", true⟩, ⟨"c", true⟩].map PoolOp.add)).1 =
      min 3 MAX_CONCURRENCY
    ∧ (runOps initPool ([⟨"a", true⟩, ⟨"b", true⟩, ⟨"c", true⟩].map PoolOp.add)).1.queue =
      ([⟨"a", true⟩, ⟨"b", true⟩, ⟨"c", true⟩] : List WorkerJob).drop MAX_CONCURRENCY :=
  workerPool_concurrency_bound.2.1 [⟨"a", true⟩, ⟨"b", true⟩, ⟨"c", true⟩]
    (by decide) (by decide)

/-- C4: after `cancelJob id`, the id is in neither the pending queue nor
the active map; the slot that held it is torn down and recreated (its
generation bumps) and ends either idle or redispatched onto a queued job
that is not the cancelled one; the cancel itself fires no callback for the
id (in particular no error callback); no later operation that does not
re-add the id ever fires a callback for it; and a message arriving at a
slot with no bound job is dropped without touching the state. -/
theorem cancelJob_semantics :
    (∀ (s : PoolState) (id : JobId),
        (∀ j ∈ (cancelJob s id).1.queue, j.id ≠ id)
      ∧ (∀ j ∈ (cancelJob s id).1.activeJobs, j.id ≠ id)
      ∧ (∀ e ∈ (cancelJob s id).2, e.jobId ≠ id))
    ∧ (∀ (s : PoolState) (id : JobId) (k : Nat) (w : WorkerWrapper),
        s.workers[k]? = some w → w.currentJobId = some id →
        (∀ w2 ∈ s.workers, w2.currentJobId = some id → w2 = w) →
        s.activeJobs.any (fun j => j.id = id) = true →
        ∃ w2, (cancelJob s id).1.workers[k]? = some w2 ∧ w2.id = w.id ∧
          w2.gen = w.gen + 1 ∧ w2.currentJobId ≠ some id ∧
          ((w2.busy = false ∧ w2.currentJobId = none) ∨
            (w2.busy = true ∧ ∃ j ∈ s.queue, j.id ≠ id ∧ w2.currentJobId = some j.id)))
    ∧ (∀ (s : PoolState) (id : JobId) (ops : List PoolOp),
        (∀ op ∈ ops, ∀ j, op = PoolOp.add j → j.id ≠ id) →
        ∀ e ∈ (runOps (cancelJob s id).1 ops).2, e.jobId ≠ id)
    ∧ (∀ (s : PoolState) (workerId : Nat) (w : WorkerWrapper) (resp : WorkerResponse),
        s.workers.find? (fun x => x.id = workerId) = some w →
        w.currentJobId = none →
        handleMessage s workerId resp = (s, [])) := by
  refine ⟨cancelJob_quiet, cancelJob_resets_slot, ?_, ?_⟩
  · intro s id ops hops e he
    have hq := cancelJob_quiet s id
    exact (runOps_quiet ops (cancelJob s id).1 id hq.1 hq.2.1 hops).2.2 e he
  · intro s workerId w resp hfind hcur
    simp [handleMessage, hfind, hcur]

/-- Witness for C4: cancelling job "a" (active on slot 0, with job "b"
queued) bumps slot 0's generation, redispatches "b" onto it, and leaves no
trace of "a". -/
theorem cancelJob_semantics_witness :
    ∃ w2, (cancelJob
        { workers := [⟨0, 0, true, some "a"⟩, ⟨1, 0, false, none⟩],
          queue := [⟨"b", true⟩], activeJobs := [⟨"a", true⟩], initialized := true }
        "a").1.workers[0]? = some w2
      ∧ w2.id = (⟨0, 0, true, some "a"⟩ : WorkerWrapper).id
      ∧ w2.gen = (⟨0, 0, true, some "a"⟩ : WorkerWrapper).gen + 1
      ∧ w2.currentJobId ≠ some "a"
      ∧ ((w2.busy = false ∧ w2.currentJobId = none)
        ∨ (w2.busy = true ∧ ∃ j ∈ ([⟨"b", true⟩] : List WorkerJob),
            j.id ≠ "a" ∧ w2.currentJobId = some j.id)) :=
  cancelJob_semantics.2.1
    { workers := [⟨0, 0, true, some "a"⟩, ⟨1, 0, false, none⟩],
      queue := [⟨"b", true⟩], activeJobs := [⟨"a", true⟩], initialized := true }
    "a" 0 ⟨0, 0, true, some "a"⟩ rfl rfl (by decide) rfl

/-- C10: when reading a job's file fails during dispatch, the pool fires
`onStart` then `onError` and frees the slot, but the job is never deleted
from `activeJobs`: it stays there (and `getActiveCount` stays positive)
under every later operation that neither cancels nor re-adds its id, and
three such failures on a fresh pool leave `getActiveCount` at 3, above
`MAX_CONCURRENCY`. -/
theorem dispatch_failure_leaks_active :
    (∀ (s : PoolState) (job : WorkerJob) (fw : WorkerWrapper) (k : Nat),
        s.initialized = true → s.queue = [] →
        s.workers.find? (fun w => !w.busy) = some fw →
        s.workers[k]? = some fw →
        job.fileReadable = false →
        (addJob s job).2 = [.onStart job.id, .onError job.id "Failed to read file"]
      ∧ (addJob s job).1.activeJobs = mapSet s.activeJobs job
      ∧ (addJob s job).1.queue = []
      ∧ (addJob s job).1.workers[k]? =
          some { fw with busy := false, currentJobId := none })
    ∧ (∀ (s : PoolState) (id : JobId) (ops : List PoolOp),
        StuckActive id s → (∀ op ∈ ops, opTouchesJob id op = false) →
        (∃ j ∈ (runOps s ops).1.activeJobs, j.id = id)
        ∧ 1 ≤ getActiveCount (runOps s ops).1)
    ∧ getActiveCount (runOps initPool
        [.add ⟨"a", false⟩, .add ⟨"b", false⟩, .add ⟨"c", false⟩]).1 = 3
    ∧ MAX_CONCURRENCY < getActiveCount (runOps initPool
        [.add ⟨"a", false⟩, .add ⟨"b", false⟩, .add ⟨"c", false⟩]).1 := by
  have e1 : addJob initPool ⟨"a", false⟩ =
      (leakA, [.onStart "a", .onError "a" "Failed to read file"]) := by
    have h0 : addJob initPool ⟨"a", false⟩ =
        processNext ⟨[⟨0, 0, false, none⟩, ⟨1, 0, false, none⟩], [⟨"a", false⟩], [], true⟩ := rfl
    rw [h0, processNext_dispatch_fail
        ⟨[⟨0, 0, false, none⟩, ⟨1, 0, false, none⟩], [⟨"a", false⟩], [], true⟩
        ⟨0, 0, false, none⟩ ⟨"a", false⟩ [] rfl rfl rfl,
      processNext_empty_queue _ rfl]
    rfl
  have e2 : addJob leakA ⟨"b", false⟩ =
      (leakAB, [.onStart "b", .onError "b" "Failed to read file"]) := by
    have h0 : addJob leakA ⟨"b", false⟩ =
        processNext ⟨[⟨0, 0, false, none⟩, ⟨1, 0, false, none⟩], [⟨"b", false⟩],
          [⟨"a", false⟩], true⟩ := rfl
    rw [h0, processNext_dispatch_fail
        ⟨[⟨0, 0, false, none⟩, ⟨1, 0, false, none⟩], [⟨"b", false⟩], [⟨"a", false⟩], true⟩
        ⟨0, 0, false, none⟩ ⟨"b", false⟩ [] rfl rfl rfl,
      processNext_empty_queue _ rfl]
    rfl
  have e3 : addJob leakAB ⟨"c", false⟩ =
      (leakABC, [.onStart "c", .onError "c" "Failed to read file"]) := by
    have h0 : addJob leakAB ⟨"c", false⟩ =
        processNext ⟨[⟨0, 0, false, none⟩, ⟨1, 0, false, none⟩], [⟨"c", false⟩],
          [⟨"a", false⟩, ⟨"b", false⟩], true⟩ := rfl
    rw [h0, processNext_dispatch_fail
        ⟨[⟨0, 0, false, none⟩, ⟨1, 0, false, none⟩], [⟨"c", false⟩],
          [⟨"a", false⟩, ⟨"b", false⟩], true⟩
        ⟨0, 0, false, none⟩ ⟨"c", false⟩ [] rfl rfl rfl,
      processNext_empty_queue _ rfl]
    rfl
  have hcount : getActiveCount (runOps initPool
      [.add ⟨"a", false⟩, .add ⟨"b", false⟩, .add ⟨"c", false⟩]).1 = 3 := by
    simp only [runOps, stepOp, e1, e2, e3]
    rfl
  refine ⟨?_, ?_, hcount, ?_⟩
  · intro s job fw k hinit hqueue hfw hk hr
    have hfw2 : ({ s with queue := s.queue ++ [job] } : PoolState).workers.find?
        (fun w => !w.busy) = some fw := hfw
    have hq2 : ({ s with queue := s.queue ++ [job] } : PoolState).queue = job :: [] := by
      simp [hqueue]
    have haddeq : addJob s job = processNext { s with queue := s.queue ++ [job] } := by
      simp only [addJob, hinit, if_true]
    rw [haddeq, processNext_dispatch_fail _ fw job [] hfw2 hq2 hr,
      processNext_empty_queue _ rfl]
    refine ⟨rfl, rfl, rfl, ?_⟩
    rw [getElem?_updateWorker, getElem?_updateWorker, hk]
    simp
  · intro s id ops hstuck hops
    have h := runOps_stuck ops s id hstuck hops
    obtain ⟨⟨j, hj, hjid⟩, _, _⟩ := h
    exact ⟨⟨j, hj, hjid⟩, List.length_pos.mpr (List.ne_nil_of_mem hj)⟩
  · rw [hcount]
    decide

/-- Witness for C10: a single unreadable job on a fresh pool fires
onStart/onError, leaves the slot idle, and parks the job in activeJobs. -/
theorem dispatch_failure_leaks_active_witness :
    (addJob initPool ⟨"x", false⟩).2 =
      [.onStart "x", .onError "x" "Failed to read file"]
    ∧ (addJob initPool ⟨"x", false⟩).1.activeJobs = mapSet initPool.activeJobs ⟨"x", false⟩
    ∧ (addJob initPool ⟨"x", false⟩).1.queue = []
    ∧ (addJob initPool ⟨"x", false⟩).1.workers[0]? =
        some { (⟨0, 0, false, none⟩ : WorkerWrapper) with
          busy := false, currentJobId := none } :=
  dispatch_failure_leaks_active.1 initPool ⟨"x", false⟩ ⟨0, 0, false, none⟩ 0
    rfl rfl rfl rfl rfl

end BackgroundRemover
